import Mathlib

/-!
Verification of the self-verify solver core (`app.py`).

The development shallowly embeds the two core components of the program:

* `extract_json` — the structured-output extractor: try to parse the whole
  text as a JSON object; otherwise take the span from the first `{` to the
  last `}` (the regex `\{.*\}` with DOTALL) and parse that; otherwise fail.
* `solve_one` — the solve/verify/fix orchestrator loop.

JSON values are modelled by the inductive type `Json` (numbers as integers),
Python's `json.loads` by a fuelled recursive-descent parser `loads`, and
`json.dumps` (default separators) by `dumpVal`.  Texts are `List Char`.
The generation service is modelled as an oracle `responses : Nat → List Char`
giving the raw text of the i-th model call of a session; each call made by
the orchestrator is recorded in a trace of `CallRec` records.
-/
/-- JSON values as produced by `json.loads` (numbers restricted to integers;
the program's claims do not depend on float parsing). An object is a list of
key/value pairs in textual order. -/
inductive Json where
  | null : Json
  | bool (b : Bool) : Json
  | num (n : Int) : Json
  | str (s : List Char) : Json
  | arr (elems : List Json) : Json
  | obj (members : List (List Char × Json)) : Json

instance : Inhabited Json := ⟨Json.null⟩

/-- The opening brace character. -/
def lbrace : Char := '\x7b'

/-- The closing brace character. -/
def rbrace : Char := '\x7d'

/-- JSON whitespace characters (the set skipped by `json.loads`). -/
def isWsChar (c : Char) : Bool := c = ' ' || c = '\t' || c = '\n' || c = '\r'

/-- Skip leading JSON whitespace. -/
def skipWs (l : List Char) : List Char := l.dropWhile isWsChar

/-- ASCII decimal digit test. -/
def isDigitC (c : Char) : Bool := 48 ≤ c.toNat && c.toNat ≤ 57

/-- Body of a JSON string after the opening quote: consume until the closing
quote, handling the escape sequences the serializer can produce.  Fuelled
so that the definition reduces; one unit of fuel is spent per produced
character, so `length of input + 1` always suffices. -/
def parseStringBody : Nat → List Char → Option (List Char × List Char)
  | _, [] => none
  | 0, _ :: _ => none
  | fuel+1, c :: r =>
    if c = '\"' then some ([], r)
    else if c = '\\' then
      match r with
      | [] => none
      | e :: r2 =>
        match
          (if e = '\"' then some '\"'
           else if e = '\\' then some '\\'
           else if e = 'n' then some '\n'
           else if e = 't' then some '\t'
           else if e = 'r' then some '\r'
           else none : Option Char) with
        | some u =>
          match parseStringBody fuel r2 with
          | some (s, rr) => some (u :: s, rr)
          | none => none
        | none => none
    else
      match parseStringBody fuel r with
      | some (s, rr) => some (c :: s, rr)
      | none => none

/-- Digit list to number, most significant first. -/
def natFromDigits (ds : List Char) : Nat :=
  ds.foldl (fun a c => a * 10 + (c.toNat - 48)) 0

/-- Parse a JSON integer (optional minus sign followed by digits). -/
def parseNum (l : List Char) : Option (Int × List Char) :=
  match l with
  | [] => none
  | c :: t =>
    if c = '-' then
      if (t.takeWhile isDigitC) = [] then none
      else some (-(natFromDigits (t.takeWhile isDigitC) : Int), t.dropWhile isDigitC)
    else
      if ((c :: t).takeWhile isDigitC) = [] then none
      else some ((natFromDigits ((c :: t).takeWhile isDigitC) : Int), (c :: t).dropWhile isDigitC)

mutual

/-- Fuelled recursive-descent parser for a JSON value, modelling the grammar
accepted by Python's `json.loads` (restricted to integer numbers). Skips
leading whitespace, then dispatches on the first character. -/
def parseValue : Nat → List Char → Option (Json × List Char)
  | 0, _ => none
  | fuel+1, l =>
    match skipWs l with
    | [] => none
    | c :: t =>
      if c = lbrace then
        match skipWs t with
        | [] => none
        | d :: t2 =>
          if d = rbrace then some (Json.obj [], t2)
          else
            match parseMembers fuel (d :: t2) with
            | some (ms, r) => some (Json.obj ms, r)
            | none => none
      else if c = '[' then
        match skipWs t with
        | [] => none
        | d :: t2 =>
          if d = ']' then some (Json.arr [], t2)
          else
            match parseElems fuel (d :: t2) with
            | some (es, r) => some (Json.arr es, r)
            | none => none
      else if c = '\"' then
        match parseStringBody fuel t with
        | some (s, r) => some (Json.str s, r)
        | none => none
      else if c = '-' || isDigitC c then
        match parseNum (c :: t) with
        | some (i, r) => some (Json.num i, r)
        | none => none
      else if c = 't' then
        match t with
        | 'r' :: 'u' :: 'e' :: r => some (Json.bool true, r)
        | _ => none
      else if c = 'f' then
        match t with
        | 'a' :: 'l' :: 's' :: 'e' :: r => some (Json.bool false, r)
        | _ => none
      else if c = 'n' then
        match t with
        | 'u' :: 'l' :: 'l' :: r => some (Json.null, r)
        | _ => none
      else none

/-- Parse the members of a nonempty JSON object, consuming the closing
brace. -/
def parseMembers : Nat → List Char → Option (List (List Char × Json) × List Char)
  | 0, _ => none
  | fuel+1, l =>
    match skipWs l with
    | [] => none
    | c :: t =>
      if c = '\"' then
        match parseStringBody fuel t with
        | some (k, r1) =>
          match skipWs r1 with
          | ':' :: r2 =>
            match parseValue fuel r2 with
            | some (v, r3) =>
              match skipWs r3 with
              | [] => none
              | d :: r4 =>
                if d = ',' then
                  match parseMembers fuel r4 with
                  | some (ms, r5) => some ((k, v) :: ms, r5)
                  | none => none
                else if d = rbrace then some ([(k, v)], r4)
                else none
            | none => none
          | _ => none
        | none => none
      else none

/-- Parse the elements of a nonempty JSON array, consuming the closing
bracket. -/
def parseElems : Nat → List Char → Option (List Json × List Char)
  | 0, _ => none
  | fuel+1, l =>
    match parseValue fuel l with
    | some (v, r) =>
      match skipWs r with
      | [] => none
      | d :: r2 =>
        if d = ',' then
          match parseElems fuel r2 with
          | some (es, r3) => some (v :: es, r3)
          | none => none
        else if d = ']' then some ([v], r2)
        else none
    | none => none

end

/-- Model of `json.loads`: parse one value and require only whitespace to
follow.  `length l + 1` units of fuel always suffice because every recursive
descent consumes at least one character. -/
def loads (l : List Char) : Option Json :=
  match parseValue (l.length + 1) l with
  | some (v, rest) => if skipWs rest = [] then some v else none
  | none => none

/-- Serialization of one character inside a JSON string
(`"` and `\` and the common control characters are escaped). -/
def escChar (c : Char) : List Char :=
  if c = '\"' then ['\\', '\"']
  else if c = '\\' then ['\\', '\\']
  else if c = '\n' then ['\\', 'n']
  else if c = '\t' then ['\\', 't']
  else if c = '\r' then ['\\', 'r']
  else [c]

/-- Serialization of the body of a JSON string. -/
def escape (s : List Char) : List Char := s.foldr (fun c acc => escChar c ++ acc) []

/-- Decimal digits of a natural number, most significant first. -/
def dumpNat (n : Nat) : List Char :=
  if n < 10 then [Nat.digitChar n]
  else dumpNat (n / 10) ++ [Nat.digitChar (n % 10)]
decreasing_by exact Nat.div_lt_self (by omega) (by omega)

/-- Decimal representation of an integer. -/
def dumpInt (i : Int) : List Char :=
  if i < 0 then '-' :: dumpNat i.natAbs else dumpNat i.toNat

mutual

/-- Model of `json.dumps` with its default separators
(`", "` between items, `": "` after keys). -/
def dumpVal : Json → List Char
  | .null => "null".data
  | .bool true => "true".data
  | .bool false => "false".data
  | .num i => dumpInt i
  | .str s => '\"' :: escape s ++ ['\"']
  | .arr es => '[' :: dumpElemsD es ++ [']']
  | .obj ms => lbrace :: dumpMembersD ms ++ [rbrace]

/-- Serialize array elements, separated by `", "`. -/
def dumpElemsD : List Json → List Char
  | [] => []
  | [v] => dumpVal v
  | v :: rest => dumpVal v ++ ',' :: ' ' :: dumpElemsD rest

/-- Serialize object members, `"key": value` separated by `", "`. -/
def dumpMembersD : List (List Char × Json) → List Char
  | [] => []
  | [(k, v)] => '\"' :: escape k ++ '\"' :: ':' :: ' ' :: dumpVal v
  | (k, v) :: rest =>
    '\"' :: escape k ++ '\"' :: ':' :: ' ' :: dumpVal v ++ ',' :: ' ' :: dumpMembersD rest

end

/-- The prefix of `t` up to and including the LAST `}` of `t`, if any:
the tail of a greedy `\{.*\}` match. -/
def takeToLastClose (t : List Char) : Option (List Char) :=
  match t.reverse.dropWhile (fun c => !(c = rbrace)) with
  | [] => none
  | c :: r => some ((c :: r).reverse)

/-- Model of `JSON_OBJ_RE.search` for the regex `\{.*\}` with `re.DOTALL`:
the matched span runs from the first `{` of the text to the last `}`
(greedy), provided some `}` follows the first `{`. -/
def regexSearch (l : List Char) : Option (List Char) :=
  match l.dropWhile (fun c => !(c = lbrace)) with
  | [] => none
  | c :: t =>
    match takeToLastClose t with
    | some p => some (c :: p)
    | none => none

/-- Failures of the extractor: `malformedNoObject` models the
`ValueError("No valid JSON object found")` raised when no `{...}` span is
present, `malformedParse` the `json.JSONDecodeError` propagated when the
located span fails to parse.  Both are instances of the spec's
`MalformedOutput` error. -/
inductive ExtractErr where
  | malformedNoObject : ExtractErr
  | malformedParse : ExtractErr
deriving DecidableEq

/-- Model of `extract_json` from `app.py`: (a) parse the whole text and
return it if it is an object; (b) otherwise search for the greedy
first-`{`-to-last-`}` span and parse that, returning whatever it parses to;
(c) otherwise fail. -/
def extract_json (l : List Char) : Except ExtractErr Json :=
  match loads l with
  | some (Json.obj ms) => Except.ok (Json.obj ms)
  | _ =>
    match regexSearch l with
    | some s =>
      match loads s with
      | some v => Except.ok v
      | none => Except.error ExtractErr.malformedParse
    | none => Except.error ExtractErr.malformedNoObject

/-- A list whose head (if any) is not a decimal digit; what may legally
follow a serialized number. -/
def noDigitHead : List Char → Bool
  | [] => true
  | c :: _ => !(isDigitC c)

/-- What may follow a serialized number inside a larger serialization. -/
def numGuard : Json → List Char → Prop
  | Json.num _, rest => noDigitHead rest = true
  | _, _ => True

/-! The solve/verify/fix orchestrator

The generation service is an oracle `responses : Nat → List Char` giving the
raw text answered to the i-th model call of the session (the loop's calls are
strictly sequential, so indexing by call order is fully general).  Every call
is recorded in a trace of `CallRec`; the `stage` field is ghost
instrumentation identifying which code path issued the call.  The fixed
decoding options (temperature 0.0, seed 42) carry no information relevant to
the claims and are not modelled. -/
inductive Stage where
  | solver : Stage
  | fixer : Stage
  | verifier : Stage
deriving DecidableEq

structure CallRec where
  stage : Stage
  model : List Char
  system : List Char
  user : List Char
  response : List Char
deriving DecidableEq

inductive PipeErr where
  | invalidTaskType : PipeErr
  | malformed (e : ExtractErr) : PipeErr
deriving DecidableEq

/-- The result record of `solve_one` (`iters` is a Python int, hence `Int`). -/
structure SolveResult where
  ok : Bool
  final_answer : Json
  iters : Int

def MODEL_SOLVER : List Char := "deepseek-r1:1.5b".data

def MODEL_VERIFIER : List Char := "deepseek-r1:1.5b".data

def MODEL_FIXER : List Char := "deepseek-r1:1.5b".data

def TASK_TYPES : List (List Char) :=
  ["mcq".data, "numeric".data, "proof_outline".data, "short_answer".data]

def SOLVER_SYSTEM : List Char :=
  ("You are a problem solver. Provide ONLY a single-line JSON object as output. " ++
    "Do not include chain-of-thought. Keep reasoning internal.").data

def SOLVER_FEWSHOT (taskType : List Char) : List Char :=
  if taskType = "mcq".data then
    "\x7b\"answer_type\":\"mcq\",\"final_answer_letter\":\"B\",\"key_checks\":[\"letter in \x7bA,B,C,D\x7d\"],\"confidence\":0.78\x7d".data
  else if taskType = "numeric".data then
    "\x7b\"answer_type\":\"numeric\",\"final_answer_value\":\"42\",\"key_checks\":[\"units consistent\"],\"confidence\":0.75\x7d".data
  else if taskType = "proof_outline".data then
    "\x7b\"answer_type\":\"proof_outline\",\"final_claim\":\"g(n) is divisible by 3\",\"key_lemmas\":[\"mod arithmetic\"],\"key_checks\":[\"no gap\"],\"confidence\":0.70\x7d".data
  else if taskType = "short_answer".data then
    "\x7b\"answer_type\":\"short_answer\",\"final_answer_text\":\"the graph is bipartite\",\"key_checks\":[\"no odd cycle\"],\"confidence\":0.72\x7d".data
  else []

def solverUser (taskType problem : List Char) : List Char :=
  "Task type: ".data ++ taskType ++
    "\nProvide your final answer in STRICT JSON (one line).\nConstraints:\n- Do NOT include any chain-of-thought.\n- Keep output to ONE line JSON.\nExample for ".data ++
    taskType ++ ": ".data ++ SOLVER_FEWSHOT taskType ++ "\n\nProblem:\n".data ++ problem ++ "\n".data

def VERIFIER_SYSTEM : List Char :=
  ("You are a strict solution verifier. Accept a problem and a candidate JSON answer. " ++
    "Check ONLY for structure, consistency, and obvious logical issues; do NOT provide chain-of-thought. " ++
    "Output a ONE-LINE JSON bug report: \x7b\"verdict\":\"pass|fail\",\"bugs\":[...],\"bug_codes\":[...],\"advice\":[...]\x7d.").data

def verifierUser (problem candidate : List Char) : List Char :=
  "Problem:\n".data ++ problem ++ "\n\nCandidate JSON (one line):\n".data ++ candidate ++
    "\n\nValidation rules (non-exhaustive):\n- mcq: final_answer_letter must be one of A,B,C,D.\n- numeric: final_answer_value simplified (no explanatory text).\n- proof_outline: final_claim present; key_lemmas/key_checks concise.\n- short_answer: final_answer_text concise; avoid hedging.\n- confidence in [0,1].\nReturn ONE-LINE JSON as specified.".data

def FIXER_SYSTEM : List Char :=
  ("You are a fixer that revises the previous JSON answer using a bug report. " ++
    "Return ONLY ONE-LINE JSON with the same schema as the solver's type. No chain-of-thought.").data

def fixerUser (problem candidate bugReport : List Char) : List Char :=
  "Problem:\n".data ++ problem ++ "\n\nPrevious JSON answer:\n".data ++ candidate ++
    "\n\nBug report:\n".data ++ bugReport ++
    "\n\nRevise your answer to FIX the bugs. Keep format STRICT and concise.".data

/-! Python `str()` / `repr()` of parsed JSON values, `str.lower()`, `dict.get`,
and truthiness — the pieces of `verdict = str(verifier_out.get("verdict", "fail")).lower()`
and `final_answer=candidate or \x7b\x7d`. -/
def pyEscRepr (q c : Char) : List Char :=
  if c = '\\' then ['\\', '\\']
  else if c = q then ['\\', q]
  else if c = '\n' then ['\\', 'n']
  else if c = '\x0d' then ['\\', 'r']
  else if c = '\t' then ['\\', 't']
  else [c]

/-- Python `repr` of a string: single-quoted unless the string contains a
single quote and no double quote. -/
def pyReprStr (s : List Char) : List Char :=
  if s.contains '\x27' && !(s.contains '\"') then
    '\"' :: s.foldr (fun c a => pyEscRepr '\"' c ++ a) ['\"']
  else
    '\x27' :: s.foldr (fun c a => pyEscRepr '\x27' c ++ a) ['\x27']

mutual

/-- Python `repr` of a parsed JSON value. -/
def pyRepr : Json → List Char
  | .null => "None".data
  | .bool true => "True".data
  | .bool false => "False".data
  | .num i => dumpInt i
  | .str s => pyReprStr s
  | .arr es => '[' :: pyReprElems es ++ [']']
  | .obj ms => lbrace :: pyReprMembers ms ++ [rbrace]

def pyReprElems : List Json → List Char
  | [] => []
  | [v] => pyRepr v
  | v :: rest => pyRepr v ++ ',' :: ' ' :: pyReprElems rest

def pyReprMembers : List (List Char × Json) → List Char
  | [] => []
  | [(k, v)] => pyReprStr k ++ ':' :: ' ' :: pyRepr v
  | (k, v) :: rest => pyReprStr k ++ ':' :: ' ' :: pyRepr v ++ ',' :: ' ' :: pyReprMembers rest

end

/-- Python `str()` of a parsed JSON value: the string itself for strings,
`repr` otherwise. -/
def pyStr : Json → List Char
  | .str s => s
  | .null => pyRepr Json.null
  | .bool b => pyRepr (Json.bool b)
  | .num i => pyRepr (Json.num i)
  | .arr es => pyRepr (Json.arr es)
  | .obj ms => pyRepr (Json.obj ms)

/-- ASCII model of Python `str.lower()`. -/
def charLower (c : Char) : Char :=
  if 65 ≤ c.toNat ∧ c.toNat ≤ 90 then Char.ofNat (c.toNat + 32) else c

def pyLower (s : List Char) : List Char := s.map charLower

/-- Python `dict` lookup for an object built by `json.loads`: with duplicate
keys the last occurrence wins. -/
def lookupLast : List (List Char × Json) → List Char → Option Json
  | [], _ => none
  | (k, v) :: rest, key =>
    match lookupLast rest key with
    | some r => some r
    | none => if k = key then some v else none

def jsonGet : Json → List Char → Option Json
  | Json.obj ms, key => lookupLast ms key
  | _, _ => none

/-- The verdict string: `str(verifier_out.get("verdict", "fail")).lower()`. -/
def verdictOf (report : Json) : List Char :=
  pyLower (pyStr ((jsonGet report "verdict".data).getD (Json.str "fail".data)))

def isTruthy : Json → Bool
  | .null => false
  | .bool b => b
  | .num i => i != 0
  | .str s => !(s.isEmpty)
  | .arr es => !(es.isEmpty)
  | .obj ms => !(ms.isEmpty)

/-- The expression `candidate or ...`: the dict if truthy (non-empty), else the empty dict. -/
def orEmptyDict : Option Json → Json
  | none => Json.obj []
  | some v => if isTruthy v then v else Json.obj []

def mkCandCall (problem taskType : List Char) (responses : Nat → List Char)
    (cand : Option Json) (vout : Json) (idx : Nat) : CallRec :=
  match cand with
  | none =>
    ⟨Stage.solver, MODEL_SOLVER, SOLVER_SYSTEM, solverUser taskType problem, responses idx⟩
  | some c =>
    ⟨Stage.fixer, MODEL_FIXER, FIXER_SYSTEM,
      fixerUser problem (dumpVal c) (dumpVal vout), responses idx⟩

def mkVerCall (problem : List Char) (responses : Nat → List Char)
    (cand : Json) (idx : Nat) : CallRec :=
  ⟨Stage.verifier, MODEL_VERIFIER, VERIFIER_SYSTEM,
    verifierUser problem (dumpVal cand), responses idx⟩

/-- The iteration loop of `solve_one` (`for it in range(1, max_iters + 1)`),
with `fuel` the number of remaining iterations and `it` the 1-based index of
the next iteration.  Each iteration: one candidate-producing call (solver if
no candidate exists yet, fixer otherwise), then one verifier call on the
extracted candidate; terminate with `ok=True` on a "pass" verdict, else
continue; when iterations are exhausted return
`ok=False, final_answer=candidate or empty dict, iters=max_iters`.
A `MalformedOutput` from the extractor aborts the session. -/
def solveGo (problem taskType : List Char) (responses : Nat → List Char) (maxIters : Int) :
    Nat → Int → Option Json → Json → Nat → List CallRec →
      Except PipeErr SolveResult × List CallRec
  | 0, _, cand, _, _, tr => (Except.ok ⟨false, orEmptyDict cand, maxIters⟩, tr)
  | fuel+1, it, cand, vout, idx, tr =>
    let candCall := mkCandCall problem taskType responses cand vout idx
    match extract_json (responses idx) with
    | Except.error e => (Except.error (PipeErr.malformed e), tr ++ [candCall])
    | Except.ok cand2 =>
      let verCall := mkVerCall problem responses cand2 (idx + 1)
      match extract_json (responses (idx + 1)) with
      | Except.error e => (Except.error (PipeErr.malformed e), tr ++ [candCall, verCall])
      | Except.ok vout2 =>
        if verdictOf vout2 = "pass".data then
          (Except.ok ⟨true, cand2, it⟩, tr ++ [candCall, verCall])
        else
          solveGo problem taskType responses maxIters fuel (it + 1) (some cand2) vout2
            (idx + 2) (tr ++ [candCall, verCall])

/-- Model of `solve_one` from `app.py`: assert the task type is valid, then
run the loop (`Int.toNat` of a non-positive `max_iters` is 0: the Python
`range` is empty). -/
def solve_one (problem taskType : List Char) (maxIters : Int)
    (responses : Nat → List Char) : Except PipeErr SolveResult × List CallRec :=
  if taskType ∈ TASK_TYPES then
    solveGo problem taskType responses maxIters maxIters.toNat 1 none (Json.obj []) 0 []
  else (Except.error PipeErr.invalidTaskType, [])

/-! Unrolling the loop over failing iterations -/
/-- The `candidate` variable before (0-based) iteration `j`. -/
def stateCand (cands : Nat → Json) : Nat → Option Json
  | 0 => none
  | j+1 => some (cands j)

/-- The `verifier_out` variable before (0-based) iteration `j`. -/
def stateRep (reps : Nat → Json) : Nat → Json
  | 0 => Json.obj []
  | j+1 => reps j

/-- The two calls of (0-based) iteration `j`: the candidate-producing call
(solver at `j = 0`, fixer afterwards) followed by the verifier call on that
iteration's candidate. -/
def iterCallPair (problem taskType : List Char) (responses : Nat → List Char)
    (cands reps : Nat → Json) (j : Nat) : List CallRec :=
  [mkCandCall problem taskType responses (stateCand cands j) (stateRep reps j) (2*j),
   mkVerCall problem responses (cands j) (2*j + 1)]

/-- The trace of `steps` consecutive iterations starting at iteration `s`. -/
def failTrace (problem taskType : List Char) (responses : Nat → List Char)
    (cands reps : Nat → Json) : Nat → Nat → List CallRec
  | _, 0 => []
  | s, steps+1 =>
    iterCallPair problem taskType responses cands reps s ++
      failTrace problem taskType responses cands reps (s+1) steps

/-! The default-closed verdict -/
/-- A verifier report that lacks a `verdict` field, carries a non-string
verdict, or carries a string verdict other than (case-insensitively)
`"pass"`. -/
def badVerdictReport (r : Json) : Prop :=
  jsonGet r "verdict".data = none ∨
  (∃ v, jsonGet r "verdict".data = some v ∧ ∀ s, v ≠ Json.str s) ∨
  (∃ s, jsonGet r "verdict".data = some (Json.str s) ∧ pyLower s ≠ "pass".data)

/-! The per-iteration call-shape invariant -/
/-- Well-formed traces of the loop, as seen from a state where a candidate
does (`b = true`) or does not (`b = false`) already exist: iterations each
contribute one candidate-producing call (solver exactly when no candidate
exists yet, i.e. on the first iteration) immediately followed by one
verifier call whose user prompt embeds the serialization of the very
candidate extracted from that candidate call; a trailing lone candidate
call can only arise when the session aborts before its verifier call
returns a usable report. -/
inductive TraceOk (problem : List Char) : Bool → List CallRec → Prop where
  | done : ∀ b, TraceOk problem b []
  | lone : ∀ b c, c.stage = (if b then Stage.fixer else Stage.solver) →
      TraceOk problem b [c]
  | pair : ∀ b c v rest cand,
      c.stage = (if b then Stage.fixer else Stage.solver) →
      v.stage = Stage.verifier →
      extract_json c.response = Except.ok cand →
      v.user = verifierUser problem (dumpVal cand) →
      TraceOk problem true rest →
      TraceOk problem b (c :: v :: rest)

/-! Basic lemmas about whitespace skipping and character scanning -/
theorem skipWs_cons_pos {c : Char} (h : isWsChar c = true) (l : List Char) :
    skipWs (c :: l) = skipWs l := by
  simp [skipWs, List.dropWhile_cons, h]

theorem skipWs_cons_neg {c : Char} (h : isWsChar c = false) (l : List Char) :
    skipWs (c :: l) = c :: l := by
  simp [skipWs, List.dropWhile_cons, h]

theorem dropWhile_append_all {p : Char → Bool} {xs : List Char} (ys : List Char)
    (h : ∀ c ∈ xs, p c = true) : (xs ++ ys).dropWhile p = ys.dropWhile p := by
  induction xs with
  | nil => rfl
  | cons c t ih =>
    simp only [List.cons_append, List.dropWhile_cons, h c (by simp), if_true]
    exact ih (fun x hx => h x (by simp [hx]))

theorem takeWhile_append_all {p : Char → Bool} {xs : List Char} (ys : List Char)
    (h : ∀ c ∈ xs, p c = true) : (xs ++ ys).takeWhile p = xs ++ ys.takeWhile p := by
  induction xs with
  | nil => rfl
  | cons c t ih =>
    simp only [List.cons_append, List.takeWhile_cons, h c (by simp), if_true]
    rw [ih (fun x hx => h x (by simp [hx]))]

theorem takeWhile_isDigitC_of_noDigitHead {rest : List Char} (h : noDigitHead rest = true) :
    rest.takeWhile isDigitC = [] := by
  cases rest with
  | nil => rfl
  | cons c t =>
    simp only [noDigitHead, Bool.not_eq_true'] at h
    simp [List.takeWhile_cons, h]

theorem dropWhile_isDigitC_of_noDigitHead {rest : List Char} (h : noDigitHead rest = true) :
    rest.dropWhile isDigitC = rest := by
  cases rest with
  | nil => rfl
  | cons c t =>
    simp only [noDigitHead, Bool.not_eq_true'] at h
    simp [List.dropWhile_cons, h]

/-! String-body roundtrip -/
theorem parseStringBody_escape (s : List Char) : ∀ (rest : List Char) (fuel : Nat),
    s.length < fuel → parseStringBody fuel (escape s ++ '\"' :: rest) = some (s, rest) := by
  induction s with
  | nil =>
    intro rest fuel hf
    obtain ⟨f, rfl⟩ : ∃ f, fuel = f + 1 := ⟨fuel - 1, by omega⟩
    simp [escape, parseStringBody]
  | cons c cs ih =>
    intro rest fuel hf
    obtain ⟨f, rfl⟩ : ∃ f, fuel = f + 1 := ⟨fuel - 1, by omega⟩
    have hcs : cs.length < f := by simp at hf; omega
    have hesc : escape (c :: cs) = escChar c ++ escape cs := rfl
    rw [hesc, List.append_assoc]
    by_cases h1 : c = '\"'
    · subst h1; simp [escChar, parseStringBody, ih rest f hcs]
    · by_cases h2 : c = '\\'
      · subst h2; simp [escChar, parseStringBody, ih rest f hcs]
      · by_cases h3 : c = '\n'
        · subst h3; simp [escChar, parseStringBody, ih rest f hcs]
        · by_cases h4 : c = '\t'
          · subst h4; simp [escChar, parseStringBody, ih rest f hcs]
          · by_cases h5 : c = '\r'
            · subst h5; simp [escChar, parseStringBody, ih rest f hcs]
            · rw [escChar, if_neg h1, if_neg h2, if_neg h3, if_neg h4, if_neg h5]
              simp [parseStringBody, h1, h2, ih rest f hcs]

/-! Digit-string roundtrip -/
theorem digitChar_isDigitC {d : Nat} (h : d < 10) : isDigitC (Nat.digitChar d) = true := by
  interval_cases d <;> decide

theorem digitChar_val {d : Nat} (h : d < 10) : (Nat.digitChar d).toNat - 48 = d := by
  interval_cases d <;> decide

theorem dumpNat_all_digits (n : Nat) : ∀ c ∈ dumpNat n, isDigitC c = true := by
  induction n using Nat.strong_induction_on with
  | _ n ih =>
    by_cases h : n < 10
    · rw [dumpNat, if_pos h]
      intro c hc
      rw [List.mem_singleton] at hc
      subst hc
      exact digitChar_isDigitC h
    · rw [dumpNat, if_neg h]
      intro c hc
      rcases List.mem_append.mp hc with h1 | h1
      · exact ih (n / 10) (Nat.div_lt_self (by omega) (by omega)) c h1
      · rw [List.mem_singleton] at h1
        subst h1
        exact digitChar_isDigitC (Nat.mod_lt _ (by omega))

theorem dumpNat_ne_nil (n : Nat) : dumpNat n ≠ [] := by
  rw [dumpNat]
  by_cases h : n < 10 <;> simp [h]

theorem natFromDigits_dumpNat_aux (n : Nat) : ∀ a : Nat,
    (dumpNat n).foldl (fun a c => a * 10 + (c.toNat - 48)) a
      = a * 10 ^ (dumpNat n).length + n := by
  induction n using Nat.strong_induction_on with
  | _ n ih =>
    intro a
    by_cases h : n < 10
    · rw [dumpNat, if_pos h]
      simp [List.foldl, digitChar_val h]
    · rw [dumpNat, if_neg h]
      rw [List.foldl_append, ih (n / 10) (Nat.div_lt_self (by omega) (by omega)) a]
      have hm : n % 10 < 10 := Nat.mod_lt _ (by omega)
      simp only [List.foldl, List.length_append, List.length_singleton, digitChar_val hm]
      have hdm : n / 10 * 10 + n % 10 = n := by omega
      calc (a * 10 ^ (dumpNat (n / 10)).length + n / 10) * 10 + n % 10
          = a * (10 ^ (dumpNat (n / 10)).length * 10) + (n / 10 * 10 + n % 10) := by ring
        _ = a * 10 ^ ((dumpNat (n / 10)).length + 1) + n := by rw [hdm, pow_succ]

theorem natFromDigits_dumpNat (n : Nat) : natFromDigits (dumpNat n) = n := by
  have h := natFromDigits_dumpNat_aux n 0
  simpa [natFromDigits] using h

theorem parseNum_dumpInt (i : Int) {rest : List Char} (h : noDigitHead rest = true) :
    parseNum (dumpInt i ++ rest) = some (i, rest) := by
  have htake : ∀ n : Nat, (dumpNat n ++ rest).takeWhile isDigitC = dumpNat n := by
    intro n
    rw [takeWhile_append_all rest (dumpNat_all_digits n),
      takeWhile_isDigitC_of_noDigitHead h, List.append_nil]
  have hdrop : ∀ n : Nat, (dumpNat n ++ rest).dropWhile isDigitC = rest := by
    intro n
    rw [dropWhile_append_all rest (dumpNat_all_digits n),
      dropWhile_isDigitC_of_noDigitHead h]
  by_cases hi : i < 0
  · rw [dumpInt, if_pos hi, List.cons_append, parseNum, if_pos rfl, htake, hdrop,
      if_neg (dumpNat_ne_nil _), natFromDigits_dumpNat]
    have : -(i.natAbs : Int) = i := by omega
    rw [this]
  · rw [dumpInt, if_neg hi]
    obtain ⟨c, t, hct⟩ : ∃ c t, dumpNat i.toNat = c :: t := by
      cases hdn : dumpNat i.toNat with
      | nil => exact absurd hdn (dumpNat_ne_nil _)
      | cons c t => exact ⟨c, t, rfl⟩
    have hcdig : isDigitC c = true := dumpNat_all_digits i.toNat c (by rw [hct]; simp)
    have hcne : c ≠ '-' := by
      intro he; subst he; exact absurd hcdig (by decide)
    rw [hct, List.cons_append, parseNum, if_neg hcne, ← List.cons_append, ← hct, htake, hdrop,
      if_neg (dumpNat_ne_nil _), natFromDigits_dumpNat]
    have : (i.toNat : Int) = i := by omega
    rw [this]

/-! Heads of serialized values, and parser congruences -/
theorem escape_len (s : List Char) : s.length ≤ (escape s).length := by
  induction s with
  | nil => simp [escape]
  | cons c cs ih =>
    have h1 : escape (c :: cs) = escChar c ++ escape cs := rfl
    have h2 : 1 ≤ (escChar c).length := by
      rw [escChar]
      split_ifs <;> simp
    rw [h1, List.length_append, List.length_cons]
    omega

theorem isDigitC_facts {c : Char} (h : isDigitC c = true) :
    isWsChar c = false ∧ (c = lbrace) = False ∧ (c = '[') = False ∧ (c = '\"') = False ∧
      (c = ']') = False ∧ (c = rbrace) = False ∧ (c = ',') = False ∧ (c = '-') = False := by
  refine ⟨?_, ?_, ?_, ?_, ?_, ?_, ?_, ?_⟩
  · cases hw : isWsChar c with
    | false => rfl
    | true =>
      rw [isWsChar] at hw
      simp only [Bool.or_eq_true, decide_eq_true_eq] at hw
      rcases hw with ((h1 | h1) | h1) | h1 <;> (subst h1; exact absurd h (by decide))
  all_goals (apply eq_false; intro he; subst he; exact absurd h (by decide))

theorem dumpNat_head (n : Nat) : ∃ c t, dumpNat n = c :: t ∧ isDigitC c = true := by
  cases hdn : dumpNat n with
  | nil => exact absurd hdn (dumpNat_ne_nil n)
  | cons c t =>
    exact ⟨c, t, rfl, dumpNat_all_digits n c (by rw [hdn]; simp)⟩

theorem dumpVal_len_pos (v : Json) : 1 ≤ (dumpVal v).length := by
  cases v with
  | null => simp [dumpVal]
  | bool b => cases b <;> simp [dumpVal]
  | num i =>
    have h1 : dumpVal (Json.num i) = dumpInt i := by simp [dumpVal]
    rw [h1, dumpInt]
    by_cases h : i < 0
    · simp [h]
    · rw [if_neg h]
      obtain ⟨c, t, hct, -⟩ := dumpNat_head i.toNat
      simp [hct]
  | str s => simp [dumpVal]
  | arr es => simp [dumpVal]
  | obj ms => simp [dumpVal]

/-- The head character of any serialized value: never whitespace, never a
closing delimiter or separator. -/
theorem dumpVal_head (v : Json) : ∃ c t, dumpVal v = c :: t ∧ isWsChar c = false ∧
    (c = ']') = False ∧ (c = rbrace) = False ∧ (c = ',') = False := by
  cases v with
  | null => exact ⟨'n', "ull".data, by simp [dumpVal], by decide, by decide, by decide, by decide⟩
  | bool b =>
    cases b with
    | true => exact ⟨'t', "rue".data, by simp [dumpVal], by decide, by decide, by decide, by decide⟩
    | false => exact ⟨'f', "alse".data, by simp [dumpVal], by decide, by decide, by decide, by decide⟩
  | num i =>
    have h1 : dumpVal (Json.num i) = dumpInt i := by simp [dumpVal]
    rw [h1, dumpInt]
    by_cases h : i < 0
    · exact ⟨'-', dumpNat i.natAbs, by rw [if_pos h], by decide, by decide, by decide, by decide⟩
    · obtain ⟨c, t, hct, hcd⟩ := dumpNat_head i.toNat
      obtain ⟨hw, -, -, -, h5, h6, h7, -⟩ := isDigitC_facts hcd
      exact ⟨c, t, by rw [if_neg h, hct], hw, h5, h6, h7⟩
  | str s => exact ⟨'\"', escape s ++ ['\"'], by simp [dumpVal], by decide, by decide, by decide, by decide⟩
  | arr es => exact ⟨'[', dumpElemsD es ++ [']'], by simp [dumpVal], by decide, by decide, by decide, by decide⟩
  | obj ms => exact ⟨lbrace, dumpMembersD ms ++ [rbrace], by simp [dumpVal], by decide, by decide, by decide, by decide⟩

theorem dumpElemsD_cons_head (e : Json) (es : List Json) : ∃ c t,
    dumpElemsD (e :: es) = c :: t ∧ isWsChar c = false ∧ (c = ']') = False := by
  obtain ⟨c, t, hct, hw, h1, -, -⟩ := dumpVal_head e
  cases es with
  | nil => exact ⟨c, t, by simp [dumpElemsD, hct], hw, h1⟩
  | cons m rest =>
    exact ⟨c, t ++ ',' :: ' ' :: dumpElemsD (m :: rest),
      by simp [dumpElemsD, hct], hw, h1⟩

theorem parseValue_eq_of_skipWs (fuel : Nat) {l1 l2 : List Char} (h : skipWs l1 = skipWs l2) :
    parseValue fuel l1 = parseValue fuel l2 := by
  cases fuel with
  | zero => rfl
  | succ f =>
    simp only [parseValue]
    rw [h]

theorem parseMembers_eq_of_skipWs (fuel : Nat) {l1 l2 : List Char} (h : skipWs l1 = skipWs l2) :
    parseMembers fuel l1 = parseMembers fuel l2 := by
  cases fuel with
  | zero => rfl
  | succ f =>
    simp only [parseMembers]
    rw [h]

theorem skipWs_space (l : List Char) : skipWs (' ' :: l) = skipWs l :=
  skipWs_cons_pos (by decide) l

theorem not_ws_facts {c : Char} (hw : isWsChar c = false) :
    (c = ' ') = False ∧ (c = '\t') = False ∧ (c = '\n') = False ∧ (c = '\x0d') = False := by
  refine ⟨?_, ?_, ?_, ?_⟩ <;> (apply eq_false; intro he; subst he; exact absurd hw (by decide))

theorem parseElems_eq_of_skipWs (fuel : Nat) {l1 l2 : List Char} (h : skipWs l1 = skipWs l2) :
    parseElems fuel l1 = parseElems fuel l2 := by
  cases fuel with
  | zero => rfl
  | succ f =>
    simp only [parseElems]
    rw [parseValue_eq_of_skipWs f h]

theorem numGuard_any (v : Json) {rest : List Char} (h : noDigitHead rest = true) :
    numGuard v rest := by
  cases v <;> simp [numGuard, h]

/-! Single-constructor roundtrip steps -/
theorem parseValue_num (i : Int) (rest : List Char) (f : Nat) (hg : noDigitHead rest = true) :
    parseValue (f + 1) (dumpInt i ++ rest) = some (Json.num i, rest) := by
  have hpn : parseNum (dumpInt i ++ rest) = some (i, rest) := parseNum_dumpInt i hg
  by_cases hi : i < 0
  · rw [dumpInt, if_pos hi, List.cons_append] at hpn ⊢
    rw [parseValue, skipWs_cons_neg (by decide)]
    simp [lbrace, isDigitC, hpn]
  · rw [dumpInt, if_neg hi] at hpn ⊢
    obtain ⟨c, t, hct, hcd⟩ := dumpNat_head i.toNat
    rw [hct, List.cons_append] at hpn ⊢
    obtain ⟨hw, h1, h2, h3, -, -, -, -⟩ := isDigitC_facts hcd
    rw [parseValue, skipWs_cons_neg hw]
    simp [h1, h2, h3, hcd, hpn]

theorem parseValue_str (s : List Char) (rest : List Char) (f : Nat)
    (hlen : (escape s).length < f) :
    parseValue (f + 1) (dumpVal (Json.str s) ++ rest) = some (Json.str s, rest) := by
  have h1 : dumpVal (Json.str s) ++ rest = '\"' :: (escape s ++ '\"' :: rest) := by
    simp [dumpVal]
  have hps : parseStringBody f (escape s ++ '\"' :: rest) = some (s, rest) :=
    parseStringBody_escape s rest f (by have := escape_len s; omega)
  rw [h1, parseValue, skipWs_cons_neg (by decide)]
  simp [lbrace, hps]

/-! The serializer/parser roundtrip -/
mutual

theorem parseValue_dump (v : Json) (rest : List Char) (fuel : Nat)
    (hf : (dumpVal v).length < fuel) (hg : numGuard v rest) :
    parseValue fuel (dumpVal v ++ rest) = some (v, rest) := by
  obtain ⟨f, rfl⟩ : ∃ f, fuel = f + 1 := ⟨fuel - 1, by omega⟩
  match v with
  | .null => simp [dumpVal, parseValue, skipWs, isWsChar, lbrace, isDigitC]
  | .bool true => simp [dumpVal, parseValue, skipWs, isWsChar, lbrace, isDigitC]
  | .bool false => simp [dumpVal, parseValue, skipWs, isWsChar, lbrace, isDigitC]
  | .num i =>
    have h1 : dumpVal (Json.num i) = dumpInt i := by simp [dumpVal]
    rw [h1]
    exact parseValue_num i rest f hg
  | .str s =>
    apply parseValue_str
    have h1 : (dumpVal (Json.str s)).length = (escape s).length + 2 := by simp [dumpVal]
    omega
  | .arr [] =>
    have h1 : dumpVal (Json.arr []) ++ rest = '[' :: ']' :: rest := by
      simp [dumpVal, dumpElemsD]
    rw [h1, parseValue]
    simp [skipWs, isWsChar, lbrace]
  | .arr (e :: es) =>
    have h2 : (dumpVal (Json.arr (e :: es))).length
        = (dumpElemsD (e :: es)).length + 2 := by simp [dumpVal]
    have hpe : parseElems f (dumpElemsD (e :: es) ++ ']' :: rest) = some (e :: es, rest) :=
      parseElems_dump (e :: es) (by simp) rest f (by omega)
    have h1 : dumpVal (Json.arr (e :: es)) ++ rest
        = '[' :: (dumpElemsD (e :: es) ++ ']' :: rest) := by simp [dumpVal]
    obtain ⟨c, t, hct, hw, hne⟩ := dumpElemsD_cons_head e es
    obtain ⟨w1, w2, w3, w4⟩ := not_ws_facts hw
    rw [hct, List.cons_append] at hpe
    rw [h1, parseValue]
    simp [skipWs, isWsChar, List.dropWhile_cons, lbrace, hct, List.cons_append,
      w1, w2, w3, w4, hne, hpe]
  | .obj [] =>
    have h1 : dumpVal (Json.obj []) ++ rest = lbrace :: rbrace :: rest := by
      simp [dumpVal, dumpMembersD]
    rw [h1, parseValue]
    simp [skipWs, isWsChar, lbrace, rbrace]
  | .obj ((k, v1) :: ms) =>
    have h2 : (dumpVal (Json.obj ((k, v1) :: ms))).length
        = (dumpMembersD ((k, v1) :: ms)).length + 2 := by simp [dumpVal]
    have hpm : parseMembers f (dumpMembersD ((k, v1) :: ms) ++ rbrace :: rest)
        = some ((k, v1) :: ms, rest) :=
      parseMembers_dump ((k, v1) :: ms) (by simp) rest f (by omega)
    have h1 : dumpVal (Json.obj ((k, v1) :: ms)) ++ rest
        = lbrace :: (dumpMembersD ((k, v1) :: ms) ++ rbrace :: rest) := by simp [dumpVal]
    obtain ⟨t, ht⟩ : ∃ t, dumpMembersD ((k, v1) :: ms) = '\"' :: t := by
      cases ms with
      | nil => exact ⟨escape k ++ '\"' :: ':' :: ' ' :: dumpVal v1, by simp [dumpMembersD]⟩
      | cons m2 ms2 =>
        exact ⟨escape k ++ '\"' :: ':' :: ' ' :: dumpVal v1 ++ ',' :: ' ' :: dumpMembersD (m2 :: ms2),
          by simp [dumpMembersD]⟩
    rw [ht, List.cons_append] at hpm
    simp only [rbrace] at hpm
    rw [h1, parseValue]
    simp [skipWs, isWsChar, List.dropWhile_cons, lbrace, rbrace, ht, List.cons_append, hpm]

theorem parseMembers_dump (ms : List (List Char × Json)) (hms : ms ≠ []) (rest : List Char)
    (fuel : Nat) (hf : (dumpMembersD ms).length < fuel) :
    parseMembers fuel (dumpMembersD ms ++ rbrace :: rest) = some (ms, rest) := by
  obtain ⟨f, rfl⟩ : ∃ f, fuel = f + 1 := ⟨fuel - 1, by omega⟩
  match ms with
  | [(k, v)] =>
    have h2 : (dumpMembersD [(k, v)]).length
        = (escape k).length + (dumpVal v).length + 4 := by
      simp [dumpMembersD]
      omega
    have h3 := escape_len k
    have hlay : dumpMembersD [(k, v)] ++ rbrace :: rest
        = '\"' :: (escape k ++ '\"' :: (':' :: (' ' :: (dumpVal v ++ rbrace :: rest)))) := by
      simp [dumpMembersD]
    have hkey : parseStringBody f
        (escape k ++ '\"' :: (':' :: (' ' :: (dumpVal v ++ rbrace :: rest))))
        = some (k, ':' :: (' ' :: (dumpVal v ++ rbrace :: rest))) :=
      parseStringBody_escape k _ f (by omega)
    have hval : parseValue f (' ' :: (dumpVal v ++ rbrace :: rest)) = some (v, rbrace :: rest) := by
      rw [parseValue_eq_of_skipWs f (skipWs_space _)]
      exact parseValue_dump v (rbrace :: rest) f (by omega) (numGuard_any v rfl)
    simp only [rbrace] at hkey hval
    rw [hlay, parseMembers]
    simp [skipWs, isWsChar, lbrace, rbrace, hkey, hval]
  | (k, v) :: (m2 :: ms2) =>
    have h2 : (dumpMembersD ((k, v) :: m2 :: ms2)).length
        = (escape k).length + (dumpVal v).length + (dumpMembersD (m2 :: ms2)).length + 6 := by
      simp [dumpMembersD]
      omega
    have h3 := escape_len k
    have hlay : dumpMembersD ((k, v) :: m2 :: ms2) ++ rbrace :: rest
        = '\"' :: (escape k ++ '\"' :: (':' :: (' ' ::
            (dumpVal v ++ ',' :: (' ' :: (dumpMembersD (m2 :: ms2) ++ rbrace :: rest)))))) := by
      simp [dumpMembersD]
    have hkey : parseStringBody f
        (escape k ++ '\"' :: (':' :: (' ' ::
          (dumpVal v ++ ',' :: (' ' :: (dumpMembersD (m2 :: ms2) ++ rbrace :: rest))))))
        = some (k, ':' :: (' ' ::
          (dumpVal v ++ ',' :: (' ' :: (dumpMembersD (m2 :: ms2) ++ rbrace :: rest))))) :=
      parseStringBody_escape k _ f (by omega)
    have hval : parseValue f
        (' ' :: (dumpVal v ++ ',' :: (' ' :: (dumpMembersD (m2 :: ms2) ++ rbrace :: rest))))
        = some (v, ',' :: (' ' :: (dumpMembersD (m2 :: ms2) ++ rbrace :: rest))) := by
      rw [parseValue_eq_of_skipWs f (skipWs_space _)]
      exact parseValue_dump v _ f (by omega) (numGuard_any v rfl)
    have hrec : parseMembers f (' ' :: (dumpMembersD (m2 :: ms2) ++ rbrace :: rest))
        = some (m2 :: ms2, rest) := by
      rw [parseMembers_eq_of_skipWs f (skipWs_space _)]
      exact parseMembers_dump (m2 :: ms2) (by simp) rest f (by omega)
    simp only [rbrace] at hkey hval hrec
    rw [hlay, parseMembers]
    simp [skipWs, isWsChar, lbrace, rbrace, hkey, hval, hrec]

theorem parseElems_dump (es : List Json) (hes : es ≠ []) (rest : List Char) (fuel : Nat)
    (hf : (dumpElemsD es).length + 1 < fuel) :
    parseElems fuel (dumpElemsD es ++ ']' :: rest) = some (es, rest) := by
  obtain ⟨f, rfl⟩ : ∃ f, fuel = f + 1 := ⟨fuel - 1, by omega⟩
  match es with
  | [v] =>
    have h2 : (dumpElemsD [v]).length = (dumpVal v).length := by simp [dumpElemsD]
    have hlay : dumpElemsD [v] ++ ']' :: rest = dumpVal v ++ ']' :: rest := by simp [dumpElemsD]
    have hval : parseValue f (dumpVal v ++ ']' :: rest) = some (v, ']' :: rest) :=
      parseValue_dump v _ f (by omega) (numGuard_any v rfl)
    rw [hlay, parseElems]
    simp [skipWs, isWsChar, hval]
  | v :: (m2 :: es2) =>
    have hv1 := dumpVal_len_pos v
    have h2 : (dumpElemsD (v :: m2 :: es2)).length
        = (dumpVal v).length + (dumpElemsD (m2 :: es2)).length + 2 := by
      simp [dumpElemsD]
      omega
    have hlay : dumpElemsD (v :: m2 :: es2) ++ ']' :: rest
        = dumpVal v ++ ',' :: (' ' :: (dumpElemsD (m2 :: es2) ++ ']' :: rest)) := by
      simp [dumpElemsD]
    have hval : parseValue f (dumpVal v ++ ',' :: (' ' :: (dumpElemsD (m2 :: es2) ++ ']' :: rest)))
        = some (v, ',' :: (' ' :: (dumpElemsD (m2 :: es2) ++ ']' :: rest))) :=
      parseValue_dump v _ f (by omega) (numGuard_any v rfl)
    have hrec : parseElems f (' ' :: (dumpElemsD (m2 :: es2) ++ ']' :: rest))
        = some (m2 :: es2, rest) := by
      rw [parseElems_eq_of_skipWs f (skipWs_space _)]
      exact parseElems_dump (m2 :: es2) (by simp) rest f (by omega)
    rw [hlay, parseElems]
    simp [skipWs, isWsChar, hval, hrec]

end

/-! Extractor-level roundtrip -/
theorem loads_dump (v : Json) : loads (dumpVal v) = some v := by
  have h := parseValue_dump v [] ((dumpVal v).length + 1) (by omega) (numGuard_any v rfl)
  rw [List.append_nil] at h
  rw [loads, h]
  rfl

theorem skipWs_suffix (l : List Char) : ∃ q, l = q ++ skipWs l :=
  ⟨l.takeWhile isWsChar, (List.takeWhile_append_dropWhile isWsChar l).symm⟩

theorem parseValue_obj_head {fuel : Nat} {l : List Char} {ms : List (List Char × Json)}
    {r : List Char} (h : parseValue fuel l = some (Json.obj ms, r)) :
    ∃ t, skipWs l = lbrace :: t := by
  cases fuel with
  | zero => exact absurd h (by simp [parseValue])
  | succ f =>
    rw [parseValue] at h
    cases hsw : skipWs l with
    | nil => rw [hsw] at h; exact absurd h (by simp)
    | cons c t =>
      simp only [hsw] at h
      by_cases hc : c = lbrace
      · exact ⟨t, by rw [hc]⟩
      · simp only [if_neg hc] at h
        repeat' split at h
        all_goals simp_all

theorem mem_of_append {c : Char} {l q x : List Char} (hl : l = q ++ x) (hc : c ∈ x) : c ∈ l := by
  subst hl
  exact List.mem_append_right q hc

/-- If the serialized object is embedded between noise without `{` on the
left, the whole-text parse can only ever see the embedded object. -/
theorem skipWs_append_of_head_lbrace {p X t : List Char} (hp : lbrace ∉ p)
    (h : skipWs (p ++ X) = lbrace :: t) : skipWs (p ++ X) = skipWs X := by
  induction p with
  | nil => rfl
  | cons c p2 ih =>
    cases hw : isWsChar c with
    | true =>
      rw [List.cons_append, skipWs_cons_pos hw] at h ⊢
      exact ih (fun hm => hp (by simp [hm])) h
    | false =>
      rw [List.cons_append, skipWs_cons_neg hw] at h
      injection h with h1 h2
      exact absurd (h1 ▸ List.mem_cons_self c p2) hp

theorem regexSearch_embedded (p s : List Char) (ms : List (List Char × Json))
    (hp : lbrace ∉ p) (hs : rbrace ∉ s) :
    regexSearch (p ++ dumpVal (Json.obj ms) ++ s) = some (dumpVal (Json.obj ms)) := by
  have hd : dumpVal (Json.obj ms) = lbrace :: (dumpMembersD ms ++ [rbrace]) := by
    simp [dumpVal]
  have hlay : p ++ dumpVal (Json.obj ms) ++ s
      = p ++ lbrace :: (dumpMembersD ms ++ rbrace :: s) := by
    rw [hd]
    simp
  have hpred : ∀ c ∈ p, (fun c => !(c = lbrace)) c = true := by
    intro c hc
    simp only [Bool.not_eq_true']
    exact decide_eq_false (fun he => hp (he ▸ hc))
  rw [hlay, regexSearch, dropWhile_append_all _ hpred]
  have h1 : (lbrace :: (dumpMembersD ms ++ rbrace :: s)).dropWhile (fun c => !(c = lbrace))
      = lbrace :: (dumpMembersD ms ++ rbrace :: s) := by
    rw [List.dropWhile_cons]
    simp
  rw [h1]
  have h2 : takeToLastClose (dumpMembersD ms ++ rbrace :: s)
      = some (dumpMembersD ms ++ [rbrace]) := by
    rw [takeToLastClose]
    have hrev : (dumpMembersD ms ++ rbrace :: s).reverse
        = s.reverse ++ rbrace :: (dumpMembersD ms).reverse := by
      simp
    have hpreds : ∀ c ∈ s.reverse, (fun c => !(c = rbrace)) c = true := by
      intro c hc
      simp only [Bool.not_eq_true']
      exact decide_eq_false (fun he => hs (he ▸ (List.mem_reverse.mp hc)))
    rw [hrev, dropWhile_append_all _ hpreds, List.dropWhile_cons]
    simp
  simp [h2, hd]

/-! What the parser consumes: suffix lemmas -/
theorem skipWs_isSuffix (l : List Char) : skipWs l <:+ l := List.dropWhile_suffix isWsChar

theorem parseStringBody_isSuffix (fuel : Nat) : ∀ l s r, parseStringBody fuel l = some (s, r) →
    r <:+ l := by
  induction fuel with
  | zero =>
    intro l s r h
    cases l <;> simp [parseStringBody] at h
  | succ f ih =>
    intro l s r h
    cases l with
    | nil => simp [parseStringBody] at h
    | cons c cs =>
      by_cases h1 : c = '\"'
      · simp only [parseStringBody, if_pos h1, Option.some.injEq, Prod.mk.injEq] at h
        rw [← h.2]
        exact List.suffix_cons c cs
      · by_cases h2 : c = '\\'
        · cases cs with
          | nil => simp [parseStringBody, h1, h2] at h
          | cons e r2 =>
            simp only [parseStringBody, if_neg h1, if_pos h2] at h
            cases hu : (if e = '\"' then some '\"'
                else if e = '\\' then some '\\'
                else if e = 'n' then some '\n'
                else if e = 't' then some '\t'
                else if e = 'r' then some '\x0d'
                else (none : Option Char)) with
            | none => rw [hu] at h; simp at h
            | some u =>
              rw [hu] at h
              cases hps : parseStringBody f r2 with
              | none => rw [hps] at h; simp at h
              | some pr =>
                obtain ⟨s2, rr⟩ := pr
                rw [hps] at h
                simp only [Option.some.injEq, Prod.mk.injEq] at h
                rw [← h.2]
                exact ((ih r2 s2 rr hps).trans (List.suffix_cons e r2)).trans
                  (List.suffix_cons c (e :: r2))
        · simp only [parseStringBody, if_neg h1, if_neg h2] at h
          cases hps : parseStringBody f cs with
          | none => rw [hps] at h; simp at h
          | some pr =>
            obtain ⟨s2, rr⟩ := pr
            rw [hps] at h
            simp only [Option.some.injEq, Prod.mk.injEq] at h
            rw [← h.2]
            exact (ih cs s2 rr hps).trans (List.suffix_cons c cs)

theorem parseNum_isSuffix : ∀ l i r, parseNum l = some (i, r) → r <:+ l := by
  intro l i r h
  cases l with
  | nil => simp [parseNum] at h
  | cons c t =>
    rw [parseNum] at h
    by_cases h1 : c = '-'
    · rw [if_pos h1] at h
      by_cases h2 : t.takeWhile isDigitC = []
      · rw [if_pos h2] at h; simp at h
      · rw [if_neg h2] at h
        simp only [Option.some.injEq, Prod.mk.injEq] at h
        rw [← h.2]
        exact (List.dropWhile_suffix isDigitC).trans (List.suffix_cons c t)
    · rw [if_neg h1] at h
      by_cases h2 : (c :: t).takeWhile isDigitC = []
      · rw [if_pos h2] at h; simp at h
      · rw [if_neg h2] at h
        simp only [Option.some.injEq, Prod.mk.injEq] at h
        rw [← h.2]
        exact List.dropWhile_suffix isDigitC

theorem parse_consumed (fuel : Nat) :
    (∀ l v r, parseValue fuel l = some (v, r) → r <:+ l) ∧
    (∀ l ms r, parseMembers fuel l = some (ms, r) → rbrace :: r <:+ l) ∧
    (∀ l es r, parseElems fuel l = some (es, r) → ']' :: r <:+ l) := by
  induction fuel with
  | zero =>
    refine ⟨?_, ?_, ?_⟩ <;> (intro l x r h; simp [parseValue, parseMembers, parseElems] at h)
  | succ f ih =>
    obtain ⟨ihv, ihm, ihe⟩ := ih
    refine ⟨?_, ?_, ?_⟩
    · intro l v r h
      rw [parseValue] at h
      cases hsw : skipWs l with
      | nil => rw [hsw] at h; simp at h
      | cons c t =>
        have hsuf : c :: t <:+ l := hsw ▸ skipWs_isSuffix l
        have htl : t <:+ l := (List.suffix_cons c t).trans hsuf
        simp only [hsw] at h
        by_cases h1 : c = lbrace
        · rw [if_pos h1] at h
          cases hsw2 : skipWs t with
          | nil => rw [hsw2] at h; simp at h
          | cons d t2 =>
            have hsuf2 : d :: t2 <:+ t := hsw2 ▸ skipWs_isSuffix t
            simp only [hsw2] at h
            by_cases h2 : d = rbrace
            · simp only [if_pos h2, Option.some.injEq, Prod.mk.injEq] at h
              rw [← h.2]
              exact (((List.suffix_cons d t2).trans hsuf2).trans (List.suffix_cons c t)).trans hsuf
            · rw [if_neg h2] at h
              cases hm : parseMembers f (d :: t2) with
              | none => rw [hm] at h; simp at h
              | some pr =>
                obtain ⟨ms2, r2⟩ := pr
                rw [hm] at h
                simp only [Option.some.injEq, Prod.mk.injEq] at h
                rw [← h.2]
                have := ihm _ _ _ hm
                exact ((((List.suffix_cons rbrace r2).trans this).trans hsuf2).trans
                  (List.suffix_cons c t)).trans hsuf
        · rw [if_neg h1] at h
          by_cases h3 : c = '['
          · rw [if_pos h3] at h
            cases hsw2 : skipWs t with
            | nil => rw [hsw2] at h; simp at h
            | cons d t2 =>
              have hsuf2 : d :: t2 <:+ t := hsw2 ▸ skipWs_isSuffix t
              simp only [hsw2] at h
              by_cases h2 : d = ']'
              · simp only [if_pos h2, Option.some.injEq, Prod.mk.injEq] at h
                rw [← h.2]
                exact (((List.suffix_cons d t2).trans hsuf2).trans (List.suffix_cons c t)).trans hsuf
              · rw [if_neg h2] at h
                cases hm : parseElems f (d :: t2) with
                | none => rw [hm] at h; simp at h
                | some pr =>
                  obtain ⟨es2, r2⟩ := pr
                  rw [hm] at h
                  simp only [Option.some.injEq, Prod.mk.injEq] at h
                  rw [← h.2]
                  have := ihe _ _ _ hm
                  exact ((((List.suffix_cons ']' r2).trans this).trans hsuf2).trans
                    (List.suffix_cons c t)).trans hsuf
          · rw [if_neg h3] at h
            by_cases h4 : c = '\"'
            · rw [if_pos h4] at h
              cases hps : parseStringBody f t with
              | none => rw [hps] at h; simp at h
              | some pr =>
                obtain ⟨s2, rr⟩ := pr
                rw [hps] at h
                simp only [Option.some.injEq, Prod.mk.injEq] at h
                rw [← h.2]
                exact ((parseStringBody_isSuffix f t s2 rr hps).trans
                  (List.suffix_cons c t)).trans hsuf
            · rw [if_neg h4] at h
              by_cases h5 : (c = '-' || isDigitC c) = true
              · rw [if_pos h5] at h
                cases hpn : parseNum (c :: t) with
                | none => rw [hpn] at h; simp at h
                | some pr =>
                  obtain ⟨i2, r2⟩ := pr
                  rw [hpn] at h
                  simp only [Option.some.injEq, Prod.mk.injEq] at h
                  rw [← h.2]
                  exact (parseNum_isSuffix (c :: t) i2 r2 hpn).trans hsuf
              · rw [if_neg h5] at h
                by_cases h6 : c = 't'
                · rw [if_pos h6] at h
                  split at h
                  · rename_i r2
                    simp only [Option.some.injEq, Prod.mk.injEq] at h
                    obtain ⟨-, h7⟩ := h
                    subst h7
                    refine List.IsSuffix.trans ?_ (hsw ▸ skipWs_isSuffix l)
                    exact ⟨[c, 'r', 'u', 'e'], rfl⟩
                  · simp at h
                · rw [if_neg h6] at h
                  by_cases h8 : c = 'f'
                  · rw [if_pos h8] at h
                    split at h
                    · rename_i r2
                      simp only [Option.some.injEq, Prod.mk.injEq] at h
                      obtain ⟨-, h7⟩ := h
                      subst h7
                      refine List.IsSuffix.trans ?_ (hsw ▸ skipWs_isSuffix l)
                      exact ⟨[c, 'a', 'l', 's', 'e'], rfl⟩
                    · simp at h
                  · rw [if_neg h8] at h
                    by_cases h9 : c = 'n'
                    · rw [if_pos h9] at h
                      split at h
                      · rename_i r2
                        simp only [Option.some.injEq, Prod.mk.injEq] at h
                        obtain ⟨-, h7⟩ := h
                        subst h7
                        refine List.IsSuffix.trans ?_ (hsw ▸ skipWs_isSuffix l)
                        exact ⟨[c, 'u', 'l', 'l'], rfl⟩
                      · simp at h
                    · rw [if_neg h9] at h
                      simp at h
    · intro l ms r h
      rw [parseMembers] at h
      cases hsw : skipWs l with
      | nil => rw [hsw] at h; simp at h
      | cons c t =>
        have hsuf : c :: t <:+ l := hsw ▸ skipWs_isSuffix l
        simp only [hsw] at h
        by_cases h1 : c = '\"'
        · rw [if_pos h1] at h
          cases hps : parseStringBody f t with
          | none => rw [hps] at h; simp at h
          | some pr =>
            obtain ⟨k2, r1⟩ := pr
            simp only [hps] at h
            have hr1 : r1 <:+ t := parseStringBody_isSuffix f t k2 r1 hps
            split at h
            · rename_i r2 hsw1
              have hr2 : r2 <:+ l :=
                (((List.suffix_cons ':' r2).trans (hsw1 ▸ skipWs_isSuffix r1)).trans hr1).trans
                  ((List.suffix_cons c t).trans hsuf)
              cases hpv : parseValue f r2 with
              | none => rw [hpv] at h; simp at h
              | some pr2 =>
                obtain ⟨v2, r3⟩ := pr2
                simp only [hpv] at h
                have hr3 : r3 <:+ r2 := ihv _ _ _ hpv
                cases hsw3 : skipWs r3 with
                | nil => rw [hsw3] at h; simp at h
                | cons d r4 =>
                  have hsuf3 : d :: r4 <:+ r3 := hsw3 ▸ skipWs_isSuffix r3
                  simp only [hsw3] at h
                  by_cases hd : d = ','
                  · rw [if_pos hd] at h
                    cases hm : parseMembers f r4 with
                    | none => rw [hm] at h; simp at h
                    | some pr3 =>
                      obtain ⟨ms2, r5⟩ := pr3
                      simp only [hm, Option.some.injEq, Prod.mk.injEq] at h
                      rw [← h.2]
                      have hm2 := ihm _ _ _ hm
                      exact ((hm2.trans ((List.suffix_cons d r4).trans hsuf3)).trans
                        hr3).trans hr2
                  · rw [if_neg hd] at h
                    by_cases hd2 : d = rbrace
                    · subst hd2
                      simp only [eq_self_iff_true, if_true, Option.some.injEq,
                        Prod.mk.injEq] at h
                      rw [← h.2]
                      exact ((hsuf3.trans hr3)).trans hr2
                    · rw [if_neg hd2] at h
                      simp at h
            · simp at h
        · rw [if_neg h1] at h
          simp at h
    · intro l es r h
      rw [parseElems] at h
      cases hpv : parseValue f l with
      | none => rw [hpv] at h; simp at h
      | some pr =>
        obtain ⟨v2, r2⟩ := pr
        simp only [hpv] at h
        have hr2 : r2 <:+ l := ihv _ _ _ hpv
        cases hsw2 : skipWs r2 with
        | nil => rw [hsw2] at h; simp at h
        | cons d r3 =>
          have hsuf2 : d :: r3 <:+ r2 := hsw2 ▸ skipWs_isSuffix r2
          simp only [hsw2] at h
          by_cases hd : d = ','
          · rw [if_pos hd] at h
            cases hm : parseElems f r3 with
            | none => rw [hm] at h; simp at h
            | some pr2 =>
              obtain ⟨es2, r4⟩ := pr2
              simp only [hm, Option.some.injEq, Prod.mk.injEq] at h
              rw [← h.2]
              have := ihe _ _ _ hm
              exact ((this.trans ((List.suffix_cons d r3).trans hsuf2)).trans hr2)
          · rw [if_neg hd] at h
            by_cases hd2 : d = ']'
            · subst hd2
              simp only [eq_self_iff_true, if_true, Option.some.injEq, Prod.mk.injEq] at h
              rw [← h.2]
              exact hsuf2.trans hr2
            · rw [if_neg hd2] at h
              simp at h

theorem dropWhile_head_not {p : Char → Bool} {l : List Char} {c : Char} {t : List Char}
    (h : l.dropWhile p = c :: t) : p c = false := by
  induction l with
  | nil => simp at h
  | cons x xs ih =>
    rw [List.dropWhile_cons] at h
    by_cases hp : p x
    · rw [if_pos hp] at h
      exact ih h
    · rw [if_neg hp] at h
      injection h with hh1 hh2
      subst hh1
      simpa using hp

/-- A successful object parse located a `{` and, after it, a `}`. -/
theorem parseValue_obj_rbrace {fuel : Nat} {l : List Char} {ms : List (List Char × Json)}
    {r : List Char} (h : parseValue fuel l = some (Json.obj ms, r)) :
    ∃ a b, l = a ++ lbrace :: b ∧ rbrace ∈ b := by
  obtain ⟨t, hhd⟩ := parseValue_obj_head h
  obtain ⟨q0, hq0⟩ := skipWs_suffix l
  rw [hhd] at hq0
  refine ⟨q0, t, hq0, ?_⟩
  cases fuel with
  | zero => exact absurd h (by simp [parseValue])
  | succ f =>
    rw [parseValue] at h
    simp only [hhd, eq_self_iff_true, if_true] at h
    cases hsw2 : skipWs t with
    | nil => rw [hsw2] at h; simp at h
    | cons d t2 =>
      have hsfx : d :: t2 <:+ t := hsw2 ▸ skipWs_isSuffix t
      simp only [hsw2] at h
      by_cases hd : d = rbrace
      · subst hd
        exact hsfx.subset (List.mem_cons_self _ _)
      · rw [if_neg hd] at h
        cases hm : parseMembers f (d :: t2) with
        | none => rw [hm] at h; simp at h
        | some pr =>
          obtain ⟨ms2, r2⟩ := pr
          have hsfx2 : rbrace :: r2 <:+ d :: t2 := (parse_consumed f).2.1 _ _ _ hm
          exact hsfx.subset (hsfx2.subset (List.mem_cons_self _ _))

theorem regexSearch_some_decomp {l s : List Char} (h : regexSearch l = some s) :
    ∃ a b c, l = a ++ (lbrace :: (b ++ (rbrace :: c))) := by
  rw [regexSearch] at h
  cases hdw : l.dropWhile (fun c => !(c = lbrace)) with
  | nil => rw [hdw] at h; simp at h
  | cons c0 t =>
    simp only [hdw] at h
    have hc0 : c0 = lbrace := by
      have h1 := dropWhile_head_not hdw
      simpa using h1
    have hql : l = l.takeWhile (fun c => !(c = lbrace)) ++ c0 :: t := by
      rw [← hdw, List.takeWhile_append_dropWhile]
    rw [takeToLastClose] at h
    cases hdw2 : t.reverse.dropWhile (fun c => !(c = rbrace)) with
    | nil => rw [hdw2] at h; simp at h
    | cons c1 r1 =>
      have hc1 : c1 = rbrace := by
        have h1 := dropWhile_head_not hdw2
        simpa using h1
      have hqt : t.reverse = t.reverse.takeWhile (fun c => !(c = rbrace)) ++ c1 :: r1 := by
        rw [← hdw2, List.takeWhile_append_dropWhile]
      have ht : t = r1.reverse ++ (rbrace :: (t.reverse.takeWhile (fun c => !(c = rbrace))).reverse) := by
        subst hc1
        set A := t.reverse.takeWhile (fun c => !(c = rbrace)) with hA
        have h2 := congrArg List.reverse hqt
        rw [List.reverse_reverse] at h2
        rw [h2]
        simp
      refine ⟨l.takeWhile (fun c => !(c = lbrace)), r1.reverse,
        (t.reverse.takeWhile (fun c => !(c = rbrace))).reverse, ?_⟩
      conv_lhs => rw [hql, hc0, ht]

theorem loads_obj_decomp {l : List Char} {ms : List (List Char × Json)}
    (h : loads l = some (Json.obj ms)) :
    ∃ a b, l = a ++ lbrace :: b ∧ rbrace ∈ b := by
  rw [loads] at h
  cases hpv : parseValue (l.length + 1) l with
  | none => rw [hpv] at h; simp at h
  | some pr =>
    obtain ⟨v2, r2⟩ := pr
    simp only [hpv] at h
    by_cases hr : skipWs r2 = []
    · rw [if_pos hr] at h
      injection h with h2
      subst h2
      exact parseValue_obj_rbrace hpv
    · rw [if_neg hr] at h
      simp at h

/-! Claims about the extractor -/
/-- C5: for every well-formed structured object `O` (a string-keyed JSON
object), serializing `O` to its textual JSON form and passing that text
through the extractor returns a value equal to `O`. -/
theorem extract_json_roundtrip (ms : List (List Char × Json)) :
    extract_json (dumpVal (Json.obj ms)) = Except.ok (Json.obj ms) := by
  simp [extract_json, loads_dump]

/-- C6 (amended): for input of the form noise-prefix ++ serialized JSON
object ++ noise-suffix, where the prefix contains no `{` and the suffix
contains no `}`, the extractor returns the embedded object (the span from
the first `{` to the last `}` is exactly the serialized object). -/
theorem extract_json_embedded (p s : List Char) (ms : List (List Char × Json))
    (hp : lbrace ∉ p) (hs : rbrace ∉ s) :
    extract_json (p ++ dumpVal (Json.obj ms) ++ s) = Except.ok (Json.obj ms) := by
  have hre := regexSearch_embedded p s ms hp hs
  rw [List.append_assoc] at hre ⊢
  cases hld : loads (p ++ (dumpVal (Json.obj ms) ++ s)) with
  | none => simp [extract_json, hld, hre, loads_dump]
  | some w =>
    cases w with
    | obj mw =>
      have hmw : mw = ms := by
        rw [loads] at hld
        cases hpv : parseValue ((p ++ (dumpVal (Json.obj ms) ++ s)).length + 1)
            (p ++ (dumpVal (Json.obj ms) ++ s)) with
        | none => rw [hpv] at hld; simp at hld
        | some pr =>
          obtain ⟨v2, r2⟩ := pr
          simp only [hpv] at hld
          by_cases hr2 : skipWs r2 = []
          · rw [if_pos hr2] at hld
            injection hld with hv2
            subst hv2
            obtain ⟨t, hhd⟩ := parseValue_obj_head hpv
            have hsw2 : skipWs (p ++ (dumpVal (Json.obj ms) ++ s))
                = skipWs (dumpVal (Json.obj ms) ++ s) :=
              skipWs_append_of_head_lbrace hp hhd
            have hdet : parseValue ((p ++ (dumpVal (Json.obj ms) ++ s)).length + 1)
                (p ++ (dumpVal (Json.obj ms) ++ s)) = some (Json.obj ms, s) := by
              rw [parseValue_eq_of_skipWs _ hsw2]
              refine parseValue_dump (Json.obj ms) s _ ?_ trivial
              simp [List.length_append]
              omega
            rw [hpv] at hdet
            simp only [Option.some.injEq, Prod.mk.injEq, Json.obj.injEq] at hdet
            exact hdet.1
          · rw [if_neg hr2] at hld
            simp at hld
      subst hmw
      simp [extract_json, hld]
    | null => simp [extract_json, hld, hre, loads_dump]
    | bool b => simp [extract_json, hld, hre, loads_dump]
    | num n => simp [extract_json, hld, hre, loads_dump]
    | str s2 => simp [extract_json, hld, hre, loads_dump]
    | arr es => simp [extract_json, hld, hre, loads_dump]

/-- C6 counterexample: with a noise prefix containing `{`, the greedy span
from the first `{` to the last `}` is not valid JSON, so the extractor
fails instead of returning the embedded object. -/
theorem extract_json_embedded_cex :
    extract_json ([lbrace] ++ dumpVal (Json.obj []) ++ [])
        = Except.error ExtractErr.malformedParse ∧
      Except.error ExtractErr.malformedParse
        ≠ Except.ok (Json.obj ([] : List (List Char × Json))) := by
  constructor
  · have hd : dumpVal (Json.obj []) = [lbrace, rbrace] := by
      simp [dumpVal, dumpMembersD]
    rw [hd]
    rfl
  · simp

/-- Witness for C6: a concrete embedded object with brace-free noise. -/
theorem extract_json_embedded_witness :
    lbrace ∉ "noise ".data ∧ rbrace ∉ " tail".data ∧
      extract_json ("noise ".data ++ dumpVal (Json.obj [("a".data, Json.num 1)]) ++ " tail".data)
        = Except.ok (Json.obj [("a".data, Json.num 1)]) :=
  ⟨by decide, by decide, extract_json_embedded _ _ _ (by decide) (by decide)⟩

/-- C7: for input text with no `{` followed later by `}`, the extractor
fails with the `MalformedOutput` error `No valid JSON object found`. -/
theorem extract_json_no_span (l : List Char)
    (hns : ∀ a b c : List Char, l ≠ a ++ (lbrace :: (b ++ (rbrace :: c)))) :
    extract_json l = Except.error ExtractErr.malformedNoObject := by
  have hre : regexSearch l = none := by
    cases hr : regexSearch l with
    | none => rfl
    | some s =>
      obtain ⟨a, b, c, habc⟩ := regexSearch_some_decomp hr
      exact absurd habc (hns a b c)
  have hnotobj : ∀ ms, loads l ≠ some (Json.obj ms) := by
    intro ms hld
    obtain ⟨a, b, hab, hmem⟩ := loads_obj_decomp hld
    obtain ⟨b1, b2, hb⟩ := List.append_of_mem hmem
    subst hb
    exact hns a b1 b2 (by rw [hab])
  cases hld : loads l with
  | none => simp [extract_json, hld, hre]
  | some w =>
    cases w with
    | obj ms => exact absurd hld (hnotobj ms)
    | null => simp [extract_json, hld, hre]
    | bool b => simp [extract_json, hld, hre]
    | num n => simp [extract_json, hld, hre]
    | str s => simp [extract_json, hld, hre]
    | arr es => simp [extract_json, hld, hre]

/-- Witness for C7: plain prose contains no brace at all. -/
theorem extract_json_no_span_witness :
    extract_json "plain prose".data = Except.error ExtractErr.malformedNoObject := by
  apply extract_json_no_span
  intro a b c habc
  have hm : lbrace ∈ "plain prose".data := by rw [habc]; simp
  exact absurd hm (by decide)

/-- C9: when the whole-text parse yields no object and the located
`{...}` span fails to parse, the extractor signals `MalformedOutput`
(the propagated decode error) and returns no value. -/
theorem extract_json_span_unparsable (l span : List Char)
    (h1 : ∀ ms : List (List Char × Json), loads l ≠ some (Json.obj ms))
    (h2 : regexSearch l = some span)
    (h3 : loads span = none) :
    extract_json l = Except.error ExtractErr.malformedParse := by
  cases hld : loads l with
  | none => simp [extract_json, hld, h2, h3]
  | some w =>
    cases w with
    | obj ms => exact absurd hld (h1 ms)
    | null => simp [extract_json, hld, h2, h3]
    | bool b => simp [extract_json, hld, h2, h3]
    | num n => simp [extract_json, hld, h2, h3]
    | str s => simp [extract_json, hld, h2, h3]
    | arr es => simp [extract_json, hld, h2, h3]

/-- Witness for C9: a present span that is not valid JSON. -/
theorem extract_json_span_unparsable_witness :
    (∀ ms : List (List Char × Json),
        loads "x \x7b broken \x7d y".data ≠ some (Json.obj ms)) ∧
      regexSearch "x \x7b broken \x7d y".data = some "\x7b broken \x7d".data ∧
      loads "\x7b broken \x7d".data = none ∧
      extract_json "x \x7b broken \x7d y".data = Except.error ExtractErr.malformedParse := by
  have hl : loads "x \x7b broken \x7d y".data = none := by rfl
  refine ⟨?_, by rfl, by rfl, ?_⟩
  · intro ms hcontra
    rw [hl] at hcontra
    cases hcontra
  · exact extract_json_span_unparsable _ _ (by intro ms hcontra; rw [hl] at hcontra; cases hcontra)
      (by rfl) (by rfl)

theorem solveGo_unroll (problem taskType : List Char) (responses : Nat → List Char)
    (maxIters : Int) (cands reps : Nat → Json) (steps : Nat) :
    ∀ (s fuel : Nat) (it : Int) (tr : List CallRec),
      steps ≤ fuel →
      (∀ j, s ≤ j → j < s + steps → extract_json (responses (2*j)) = Except.ok (cands j)) →
      (∀ j, s ≤ j → j < s + steps → extract_json (responses (2*j+1)) = Except.ok (reps j)) →
      (∀ j, s ≤ j → j < s + steps → verdictOf (reps j) ≠ "pass".data) →
      solveGo problem taskType responses maxIters fuel it
          (stateCand cands s) (stateRep reps s) (2*s) tr
        = solveGo problem taskType responses maxIters (fuel - steps) (it + steps)
            (stateCand cands (s + steps)) (stateRep reps (s + steps)) (2*(s + steps))
            (tr ++ failTrace problem taskType responses cands reps s steps) := by
  induction steps with
  | zero =>
    intro s fuel it tr hf hc hr hv
    simp [failTrace]
  | succ st ih =>
    intro s fuel it tr hf hc hr hv
    obtain ⟨f, rfl⟩ : ∃ f, fuel = f + 1 := ⟨fuel - 1, by omega⟩
    have hstep : solveGo problem taskType responses maxIters (f+1) it
        (stateCand cands s) (stateRep reps s) (2*s) tr
      = solveGo problem taskType responses maxIters f (it+1) (some (cands s)) (reps s)
          (2*s + 2) (tr ++ iterCallPair problem taskType responses cands reps s) := by
      simp only [solveGo, hc s (le_refl s) (by omega), hr s (le_refl s) (by omega),
        hv s (le_refl s) (by omega), if_false, iterCallPair]
    rw [hstep]
    have hrec := ih (s+1) f (it+1) (tr ++ iterCallPair problem taskType responses cands reps s)
      (by omega) (fun j hj1 hj2 => hc j (by omega) (by omega))
      (fun j hj1 hj2 => hr j (by omega) (by omega))
      (fun j hj1 hj2 => hv j (by omega) (by omega))
    rw [show stateCand cands (s+1) = some (cands s) from rfl,
      show stateRep reps (s+1) = reps s from rfl,
      show 2*(s+1) = 2*s + 2 from by ring] at hrec
    rw [hrec]
    have e1 : s + (st + 1) = s + 1 + st := by omega
    have e2 : f + 1 - (st + 1) = f - st := by omega
    have e3 : it + ((st : Int) + 1) = it + 1 + (st : Int) := by ring
    have e4 : failTrace problem taskType responses cands reps s (st+1)
        = iterCallPair problem taskType responses cands reps s ++
            failTrace problem taskType responses cands reps (s+1) st := rfl
    rw [e1, e2, e4, ← List.append_assoc]
    push_cast
    rw [e3]

/-! Results of the extractor are always objects -/
theorem regexSearch_head {l s : List Char} (h : regexSearch l = some s) :
    ∃ t, s = lbrace :: t := by
  rw [regexSearch] at h
  cases hdw : l.dropWhile (fun c => !(c = lbrace)) with
  | nil => rw [hdw] at h; simp at h
  | cons c0 t =>
    simp only [hdw] at h
    have hc0 : c0 = lbrace := by simpa using dropWhile_head_not hdw
    cases htt : takeToLastClose t with
    | none => rw [htt] at h; simp at h
    | some p =>
      simp only [htt, Option.some.injEq] at h
      exact ⟨p, by rw [← h, hc0]⟩

theorem parseValue_lbrace_obj {fuel : Nat} {l t : List Char} {v : Json} {r : List Char}
    (hhd : skipWs l = lbrace :: t) (h : parseValue fuel l = some (v, r)) :
    ∃ ms, v = Json.obj ms := by
  cases fuel with
  | zero => simp [parseValue] at h
  | succ f =>
    rw [parseValue] at h
    simp only [hhd, eq_self_iff_true, if_true] at h
    cases hsw2 : skipWs t with
    | nil => rw [hsw2] at h; simp at h
    | cons d t2 =>
      simp only [hsw2] at h
      by_cases hd : d = rbrace
      · rw [if_pos hd] at h
        simp only [Option.some.injEq, Prod.mk.injEq] at h
        exact ⟨[], h.1.symm⟩
      · rw [if_neg hd] at h
        cases hm : parseMembers f (d :: t2) with
        | none => rw [hm] at h; simp at h
        | some pr =>
          obtain ⟨ms2, r2⟩ := pr
          simp only [hm, Option.some.injEq, Prod.mk.injEq] at h
          exact ⟨ms2, h.1.symm⟩

theorem loads_span_isObj {l s : List Char} {w : Json} (hre : regexSearch l = some s)
    (hls : loads s = some w) : ∃ ms, w = Json.obj ms := by
  obtain ⟨t, rfl⟩ := regexSearch_head hre
  rw [loads] at hls
  cases hpv : parseValue ((lbrace :: t).length + 1) (lbrace :: t) with
  | none => rw [hpv] at hls; simp at hls
  | some pr =>
    obtain ⟨v2, r2⟩ := pr
    simp only [hpv] at hls
    by_cases hr2 : skipWs r2 = []
    · rw [if_pos hr2] at hls
      injection hls with hv2
      subst hv2
      exact parseValue_lbrace_obj (skipWs_cons_neg (by decide) t) hpv
    · rw [if_neg hr2] at hls
      simp at hls

/-- Every value the extractor returns is a JSON object (a Python dict). -/
theorem extract_json_isObj {l : List Char} {v : Json} (h : extract_json l = Except.ok v) :
    ∃ ms, v = Json.obj ms := by
  rw [extract_json] at h
  split at h
  · rename_i ms heq
    injection h with h2
    exact ⟨ms, h2.symm⟩
  · split at h
    · rename_i s hre
      split at h
      · rename_i w hls
        injection h with h2
        subst h2
        exact loads_span_isObj hre hls
      · cases h
    · cases h

theorem orEmptyDict_obj (ms : List (List Char × Json)) :
    orEmptyDict (some (Json.obj ms)) = Json.obj ms := by
  cases ms with
  | nil => rfl
  | cons m rest => rfl

/-! One successful verification step -/
theorem solveGo_pass_step (problem taskType : List Char) (responses : Nat → List Char)
    (maxIters : Int) (f : Nat) (it : Int) (cand : Option Json) (vout : Json) (idx : Nat)
    (tr : List CallRec) (c2 r : Json)
    (hc : extract_json (responses idx) = Except.ok c2)
    (hr : extract_json (responses (idx+1)) = Except.ok r)
    (hpass : verdictOf r = "pass".data) :
    solveGo problem taskType responses maxIters (f+1) it cand vout idx tr
      = (Except.ok ⟨true, c2, it⟩,
         tr ++ [mkCandCall problem taskType responses cand vout idx,
                mkVerCall problem responses c2 (idx+1)]) := by
  simp only [solveGo, hc, hr, hpass, eq_self_iff_true, if_true]

/-! Counting calls by stage -/
theorem stage_beq_ss : (Stage.solver == Stage.solver) = true := rfl

theorem stage_beq_sf : (Stage.solver == Stage.fixer) = false := rfl

theorem stage_beq_sv : (Stage.solver == Stage.verifier) = false := rfl

theorem stage_beq_fs : (Stage.fixer == Stage.solver) = false := rfl

theorem stage_beq_ff : (Stage.fixer == Stage.fixer) = true := rfl

theorem stage_beq_fv : (Stage.fixer == Stage.verifier) = false := rfl

theorem stage_beq_vs : (Stage.verifier == Stage.solver) = false := rfl

theorem stage_beq_vf : (Stage.verifier == Stage.fixer) = false := rfl

theorem stage_beq_vv : (Stage.verifier == Stage.verifier) = true := rfl

theorem iterCallPair_filter_verifier (problem taskType : List Char)
    (responses : Nat → List Char) (cands reps : Nat → Json) (s : Nat) :
    ((iterCallPair problem taskType responses cands reps s).filter
        (fun c => c.stage == Stage.verifier)).length = 1 := by
  cases s <;> simp [iterCallPair, mkCandCall, mkVerCall, stateCand, stateRep, List.filter,
      stage_beq_ss, stage_beq_sf, stage_beq_sv, stage_beq_fs, stage_beq_ff, stage_beq_fv,
      stage_beq_vs, stage_beq_vf, stage_beq_vv]

theorem iterCallPair_filter_solver_zero (problem taskType : List Char)
    (responses : Nat → List Char) (cands reps : Nat → Json) :
    ((iterCallPair problem taskType responses cands reps 0).filter
        (fun c => c.stage == Stage.solver)).length = 1 := by
  simp [iterCallPair, mkCandCall, mkVerCall, stateCand, stateRep, List.filter,
      stage_beq_ss, stage_beq_sf, stage_beq_sv, stage_beq_fs, stage_beq_ff, stage_beq_fv,
      stage_beq_vs, stage_beq_vf, stage_beq_vv]

theorem iterCallPair_filter_solver_succ (problem taskType : List Char)
    (responses : Nat → List Char) (cands reps : Nat → Json) (s : Nat) :
    ((iterCallPair problem taskType responses cands reps (s+1)).filter
        (fun c => c.stage == Stage.solver)).length = 0 := by
  simp [iterCallPair, mkCandCall, mkVerCall, stateCand, stateRep, List.filter,
      stage_beq_ss, stage_beq_sf, stage_beq_sv, stage_beq_fs, stage_beq_ff, stage_beq_fv,
      stage_beq_vs, stage_beq_vf, stage_beq_vv]

theorem iterCallPair_filter_fixer_zero (problem taskType : List Char)
    (responses : Nat → List Char) (cands reps : Nat → Json) :
    ((iterCallPair problem taskType responses cands reps 0).filter
        (fun c => c.stage == Stage.fixer)).length = 0 := by
  simp [iterCallPair, mkCandCall, mkVerCall, stateCand, stateRep, List.filter,
      stage_beq_ss, stage_beq_sf, stage_beq_sv, stage_beq_fs, stage_beq_ff, stage_beq_fv,
      stage_beq_vs, stage_beq_vf, stage_beq_vv]

theorem iterCallPair_filter_fixer_succ (problem taskType : List Char)
    (responses : Nat → List Char) (cands reps : Nat → Json) (s : Nat) :
    ((iterCallPair problem taskType responses cands reps (s+1)).filter
        (fun c => c.stage == Stage.fixer)).length = 1 := by
  simp [iterCallPair, mkCandCall, mkVerCall, stateCand, stateRep, List.filter,
      stage_beq_ss, stage_beq_sf, stage_beq_sv, stage_beq_fs, stage_beq_ff, stage_beq_fv,
      stage_beq_vs, stage_beq_vf, stage_beq_vv]

theorem failTrace_filter_verifier (problem taskType : List Char)
    (responses : Nat → List Char) (cands reps : Nat → Json) :
    ∀ (steps s : Nat),
      ((failTrace problem taskType responses cands reps s steps).filter
          (fun c => c.stage == Stage.verifier)).length = steps := by
  intro steps
  induction steps with
  | zero => intro s; rfl
  | succ st ih =>
    intro s
    have he : failTrace problem taskType responses cands reps s (st+1)
        = iterCallPair problem taskType responses cands reps s ++
            failTrace problem taskType responses cands reps (s+1) st := rfl
    rw [he, List.filter_append, List.length_append, ih (s+1),
      iterCallPair_filter_verifier]
    omega

theorem failTrace_filter_solver_succ (problem taskType : List Char)
    (responses : Nat → List Char) (cands reps : Nat → Json) :
    ∀ (steps s : Nat),
      ((failTrace problem taskType responses cands reps (s+1) steps).filter
          (fun c => c.stage == Stage.solver)).length = 0 := by
  intro steps
  induction steps with
  | zero => intro s; rfl
  | succ st ih =>
    intro s
    have he : failTrace problem taskType responses cands reps (s+1) (st+1)
        = iterCallPair problem taskType responses cands reps (s+1) ++
            failTrace problem taskType responses cands reps (s+2) st := rfl
    rw [he, List.filter_append, List.length_append, ih (s+1),
      iterCallPair_filter_solver_succ]

theorem failTrace_filter_solver_zero (problem taskType : List Char)
    (responses : Nat → List Char) (cands reps : Nat → Json) (st : Nat) :
    ((failTrace problem taskType responses cands reps 0 (st+1)).filter
        (fun c => c.stage == Stage.solver)).length = 1 := by
  have he : failTrace problem taskType responses cands reps 0 (st+1)
      = iterCallPair problem taskType responses cands reps 0 ++
          failTrace problem taskType responses cands reps 1 st := rfl
  rw [he, List.filter_append, List.length_append,
    iterCallPair_filter_solver_zero,
    failTrace_filter_solver_succ problem taskType responses cands reps st 0]

theorem failTrace_filter_fixer_succ (problem taskType : List Char)
    (responses : Nat → List Char) (cands reps : Nat → Json) :
    ∀ (steps s : Nat),
      ((failTrace problem taskType responses cands reps (s+1) steps).filter
          (fun c => c.stage == Stage.fixer)).length = steps := by
  intro steps
  induction steps with
  | zero => intro s; rfl
  | succ st ih =>
    intro s
    have he : failTrace problem taskType responses cands reps (s+1) (st+1)
        = iterCallPair problem taskType responses cands reps (s+1) ++
            failTrace problem taskType responses cands reps (s+2) st := rfl
    rw [he, List.filter_append, List.length_append, ih (s+1),
      iterCallPair_filter_fixer_succ]
    omega

theorem failTrace_filter_fixer_zero (problem taskType : List Char)
    (responses : Nat → List Char) (cands reps : Nat → Json) (st : Nat) :
    ((failTrace problem taskType responses cands reps 0 (st+1)).filter
        (fun c => c.stage == Stage.fixer)).length = st := by
  have he : failTrace problem taskType responses cands reps 0 (st+1)
      = iterCallPair problem taskType responses cands reps 0 ++
          failTrace problem taskType responses cands reps 1 st := rfl
  rw [he, List.filter_append, List.length_append,
    iterCallPair_filter_fixer_zero,
    failTrace_filter_fixer_succ problem taskType responses cands reps st 0]
  omega

theorem failTrace_length (problem taskType : List Char)
    (responses : Nat → List Char) (cands reps : Nat → Json) :
    ∀ (steps s : Nat),
      (failTrace problem taskType responses cands reps s steps).length = 2 * steps := by
  intro steps
  induction steps with
  | zero => intro s; rfl
  | succ st ih =>
    intro s
    have he : failTrace problem taskType responses cands reps s (st+1)
        = iterCallPair problem taskType responses cands reps s ++
            failTrace problem taskType responses cands reps (s+1) st := rfl
    rw [he, List.length_append, ih (s+1)]
    have : (iterCallPair problem taskType responses cands reps s).length = 2 := by
      cases s <;> rfl
    rw [this]
    omega

/-! Claims about the loop -/
/-- C1: with a valid task type, positive bound `N`, and responses whose
verifier reports never pass, `solve_one` performs exactly `N`
candidate-producing calls (one solver call, then `N-1` fixer calls) and
exactly `N` verifier calls, and returns `ok = false`, `iters = N`, and the
last candidate produced as the final answer. -/
theorem solve_one_all_fail (problem taskType : List Char) (responses : Nat → List Char)
    (N : Nat) (cands reps : Nat → Json)
    (htask : taskType ∈ TASK_TYPES) (hN : 1 ≤ N)
    (hc : ∀ j, j < N → extract_json (responses (2*j)) = Except.ok (cands j))
    (hr : ∀ j, j < N → extract_json (responses (2*j+1)) = Except.ok (reps j))
    (hv : ∀ j, j < N → verdictOf (reps j) ≠ "pass".data) :
    solve_one problem taskType (N : Int) responses
      = (Except.ok ⟨false, cands (N-1), (N : Int)⟩,
         failTrace problem taskType responses cands reps 0 N)
    ∧ ((failTrace problem taskType responses cands reps 0 N).filter
        (fun c => c.stage == Stage.solver)).length = 1
    ∧ ((failTrace problem taskType responses cands reps 0 N).filter
        (fun c => c.stage == Stage.fixer)).length = N - 1
    ∧ ((failTrace problem taskType responses cands reps 0 N).filter
        (fun c => c.stage == Stage.verifier)).length = N := by
  obtain ⟨M, rfl⟩ : ∃ M, N = M + 1 := ⟨N - 1, by omega⟩
  refine ⟨?_, ?_, ?_, ?_⟩
  · have key := solveGo_unroll problem taskType responses ((M+1 : Nat) : Int) cands reps (M+1)
      0 (M+1) 1 [] (le_refl _)
      (fun j h1 h2 => hc j (by omega)) (fun j h1 h2 => hr j (by omega))
      (fun j h1 h2 => hv j (by omega))
    rw [show stateCand cands 0 = none from rfl, show stateRep reps 0 = Json.obj [] from rfl,
      show 2*0 = 0 from rfl, Nat.sub_self, Nat.zero_add, List.nil_append] at key
    rw [solve_one, if_pos htask, show (((M+1 : Nat) : Int)).toNat = M + 1 from by omega, key]
    rw [show stateCand cands (M+1) = some (cands M) from rfl]
    obtain ⟨msM, hmsM⟩ := extract_json_isObj (hc M (by omega))
    simp only [solveGo]
    rw [hmsM, orEmptyDict_obj, ← hmsM, show M + 1 - 1 = M from rfl]
  · exact failTrace_filter_solver_zero problem taskType responses cands reps M
  · rw [show M + 1 - 1 = M from rfl]
    exact failTrace_filter_fixer_zero problem taskType responses cands reps M
  · exact failTrace_filter_verifier problem taskType responses cands reps (M+1) 0

/-- Witness for C1 at `N = 1` with a concrete failing report. -/
theorem solve_one_all_fail_witness :
    solve_one "what".data "mcq".data ((1 : Nat) : Int)
        (fun i => if i = 0 then "\x7b\"a\": 1\x7d".data else "\x7b\"verdict\": \"fail\"\x7d".data)
      = (Except.ok ⟨false, (fun _ : Nat => Json.obj [("a".data, Json.num 1)]) (1-1), ((1 : Nat) : Int)⟩,
         failTrace "what".data "mcq".data
           (fun i => if i = 0 then "\x7b\"a\": 1\x7d".data else "\x7b\"verdict\": \"fail\"\x7d".data)
           (fun _ => Json.obj [("a".data, Json.num 1)])
           (fun _ => Json.obj [("verdict".data, Json.str "fail".data)]) 0 1)
    ∧ ((failTrace "what".data "mcq".data
           (fun i => if i = 0 then "\x7b\"a\": 1\x7d".data else "\x7b\"verdict\": \"fail\"\x7d".data)
           (fun _ => Json.obj [("a".data, Json.num 1)])
           (fun _ => Json.obj [("verdict".data, Json.str "fail".data)]) 0 1).filter
        (fun c => c.stage == Stage.solver)).length = 1
    ∧ ((failTrace "what".data "mcq".data
           (fun i => if i = 0 then "\x7b\"a\": 1\x7d".data else "\x7b\"verdict\": \"fail\"\x7d".data)
           (fun _ => Json.obj [("a".data, Json.num 1)])
           (fun _ => Json.obj [("verdict".data, Json.str "fail".data)]) 0 1).filter
        (fun c => c.stage == Stage.fixer)).length = 1 - 1
    ∧ ((failTrace "what".data "mcq".data
           (fun i => if i = 0 then "\x7b\"a\": 1\x7d".data else "\x7b\"verdict\": \"fail\"\x7d".data)
           (fun _ => Json.obj [("a".data, Json.num 1)])
           (fun _ => Json.obj [("verdict".data, Json.str "fail".data)]) 0 1).filter
        (fun c => c.stage == Stage.verifier)).length = 1 :=
  solve_one_all_fail "what".data "mcq".data
    (fun i => if i = 0 then "\x7b\"a\": 1\x7d".data else "\x7b\"verdict\": \"fail\"\x7d".data)
    1 (fun _ => Json.obj [("a".data, Json.num 1)])
    (fun _ => Json.obj [("verdict".data, Json.str "fail".data)])
    (by decide) (le_refl 1)
    (by intro j hj; have hj0 : j = 0 := (by omega); subst hj0; rfl)
    (by intro j hj; have hj0 : j = 0 := (by omega); subst hj0; rfl)
    (by intro j hj; have hj0 : j = 0 := (by omega); subst hj0; decide)

/-- C2: if the verifier's report passes (case-insensitively) at iteration
`k ≤ N` and all earlier reports fail, `solve_one` stops right after that
verify call with `ok = true`, `final_answer` = iteration `k`'s candidate,
`iters = k`, and exactly `2k` model calls in total. -/
theorem solve_one_early_pass (problem taskType : List Char) (responses : Nat → List Char)
    (N k : Nat) (cands reps : Nat → Json)
    (htask : taskType ∈ TASK_TYPES) (hk1 : 1 ≤ k) (hkN : k ≤ N)
    (hc : ∀ j, j < k → extract_json (responses (2*j)) = Except.ok (cands j))
    (hr : ∀ j, j < k → extract_json (responses (2*j+1)) = Except.ok (reps j))
    (hv : ∀ j, j < k - 1 → verdictOf (reps j) ≠ "pass".data)
    (hpass : verdictOf (reps (k-1)) = "pass".data) :
    solve_one problem taskType (N : Int) responses
      = (Except.ok ⟨true, cands (k-1), (k : Int)⟩,
         failTrace problem taskType responses cands reps 0 (k-1) ++
           iterCallPair problem taskType responses cands reps (k-1))
    ∧ (failTrace problem taskType responses cands reps 0 (k-1) ++
         iterCallPair problem taskType responses cands reps (k-1)).length = 2 * k := by
  obtain ⟨K, rfl⟩ : ∃ K, k = K + 1 := ⟨k - 1, by omega⟩
  rw [show K + 1 - 1 = K from rfl] at hv hpass ⊢
  constructor
  · have key := solveGo_unroll problem taskType responses (N : Int) cands reps K
      0 N 1 [] (by omega)
      (fun j h1 h2 => hc j (by omega)) (fun j h1 h2 => hr j (by omega))
      (fun j h1 h2 => hv j (by omega))
    rw [show stateCand cands 0 = none from rfl, show stateRep reps 0 = Json.obj [] from rfl,
      show 2*0 = 0 from rfl, Nat.zero_add, List.nil_append] at key
    rw [solve_one, if_pos htask, show ((N : Int)).toNat = N from by omega, key]
    obtain ⟨F, hF⟩ : ∃ F, N - K = F + 1 := ⟨N - K - 1, by omega⟩
    rw [hF, solveGo_pass_step problem taskType responses (N : Int) F (1 + (K : Int))
      (stateCand cands K) (stateRep reps K) (2*K)
      (failTrace problem taskType responses cands reps 0 K) (cands K) (reps K)
      (hc K (by omega)) (hr K (by omega)) hpass]
    rw [show (1 : Int) + (K : Int) = ((K+1 : Nat) : Int) from by push_cast; ring]
    rw [show iterCallPair problem taskType responses cands reps K
        = [mkCandCall problem taskType responses (stateCand cands K) (stateRep reps K) (2*K),
           mkVerCall problem responses (cands K) (2*K + 1)] from rfl]
  · rw [List.length_append, failTrace_length,
      show (iterCallPair problem taskType responses cands reps K).length = 2 from
        by cases K <;> rfl]
    omega

/-- Witness for C2 at `N = 2, k = 1` with a concrete passing report. -/
theorem solve_one_early_pass_witness :
    solve_one "q".data "numeric".data ((2 : Nat) : Int)
        (fun i => if i = 0 then "\x7b\"b\": 2\x7d".data else "\x7b\"verdict\": \"Pass\"\x7d".data)
      = (Except.ok ⟨true, (fun _ : Nat => Json.obj [("b".data, Json.num 2)]) (1-1), ((1 : Nat) : Int)⟩,
         failTrace "q".data "numeric".data
           (fun i => if i = 0 then "\x7b\"b\": 2\x7d".data else "\x7b\"verdict\": \"Pass\"\x7d".data)
           (fun _ => Json.obj [("b".data, Json.num 2)])
           (fun _ => Json.obj [("verdict".data, Json.str "Pass".data)]) 0 (1-1) ++
           iterCallPair "q".data "numeric".data
             (fun i => if i = 0 then "\x7b\"b\": 2\x7d".data else "\x7b\"verdict\": \"Pass\"\x7d".data)
             (fun _ => Json.obj [("b".data, Json.num 2)])
             (fun _ => Json.obj [("verdict".data, Json.str "Pass".data)]) (1-1))
    ∧ (failTrace "q".data "numeric".data
           (fun i => if i = 0 then "\x7b\"b\": 2\x7d".data else "\x7b\"verdict\": \"Pass\"\x7d".data)
           (fun _ => Json.obj [("b".data, Json.num 2)])
           (fun _ => Json.obj [("verdict".data, Json.str "Pass".data)]) 0 (1-1) ++
         iterCallPair "q".data "numeric".data
           (fun i => if i = 0 then "\x7b\"b\": 2\x7d".data else "\x7b\"verdict\": \"Pass\"\x7d".data)
           (fun _ => Json.obj [("b".data, Json.num 2)])
           (fun _ => Json.obj [("verdict".data, Json.str "Pass".data)]) (1-1)).length = 2 * 1 :=
  solve_one_early_pass "q".data "numeric".data
    (fun i => if i = 0 then "\x7b\"b\": 2\x7d".data else "\x7b\"verdict\": \"Pass\"\x7d".data)
    2 1 (fun _ => Json.obj [("b".data, Json.num 2)])
    (fun _ => Json.obj [("verdict".data, Json.str "Pass".data)])
    (by decide) (le_refl 1) (by omega)
    (by intro j hj; have hj0 : j = 0 := (by omega); subst hj0; rfl)
    (by intro j hj; have hj0 : j = 0 := (by omega); subst hj0; rfl)
    (by intro j hj; omega)
    (by decide)

theorem pyStr_ne_pass {v : Json} (hnv : ∀ s, v ≠ Json.str s) :
    pyLower (pyStr v) ≠ "pass".data := by
  cases v with
  | str s => exact absurd rfl (hnv s)
  | null =>
    simp only [pyStr, pyRepr]
    decide
  | bool b =>
    cases b <;> (simp only [pyStr, pyRepr]; decide)
  | num i =>
    simp only [pyStr, pyRepr]
    rw [dumpInt]
    by_cases hi : i < 0
    · rw [if_pos hi]
      intro heq
      rw [pyLower, List.map_cons] at heq
      injection heq with h1 h2
      exact absurd h1 (by decide)
    · rw [if_neg hi]
      obtain ⟨c, t, hct, hcd⟩ := dumpNat_head i.toNat
      rw [hct]
      intro heq
      rw [pyLower, List.map_cons] at heq
      injection heq with h1 h2
      simp only [isDigitC, Bool.and_eq_true, decide_eq_true_eq] at hcd
      have hlow : charLower c = c := by
        rw [charLower, if_neg]
        omega
      rw [hlow] at h1
      subst h1
      simp at hcd
  | arr es =>
    simp only [pyStr, pyRepr]
    intro heq
    rw [pyLower, List.cons_append, List.map_cons] at heq
    injection heq with h1 h2
    exact absurd h1 (by decide)
  | obj ms =>
    simp only [pyStr, pyRepr]
    intro heq
    rw [pyLower, List.cons_append, List.map_cons] at heq
    injection heq with h1 h2
    exact absurd h1 (by decide)

theorem badVerdict_ne_pass {r : Json} (h : badVerdictReport r) :
    verdictOf r ≠ "pass".data := by
  rw [verdictOf]
  rcases h with h1 | ⟨v, hv, hvs⟩ | ⟨s, hs, hsp⟩
  · rw [h1]
    decide
  · rw [hv]
    exact pyStr_ne_pass hvs
  · rw [hs]
    exact hsp

/-- A successful result with `ok = true` records an iteration index no
smaller than the loop's current one. -/
theorem solveGo_ok_iters (problem taskType : List Char) (responses : Nat → List Char)
    (maxIters : Int) :
    ∀ (fuel : Nat) (it : Int) (cand : Option Json) (vout : Json) (idx : Nat)
      (tr : List CallRec) (res : SolveResult) (tr2 : List CallRec),
      solveGo problem taskType responses maxIters fuel it cand vout idx tr
          = (Except.ok res, tr2) →
      res.ok = true → it ≤ res.iters := by
  intro fuel
  induction fuel with
  | zero =>
    intro it cand vout idx tr res tr2 h hok
    simp only [solveGo, Prod.mk.injEq, Except.ok.injEq] at h
    rw [← h.1] at hok
    simp at hok
  | succ f ih =>
    intro it cand vout idx tr res tr2 h hok
    simp only [solveGo] at h
    split at h
    · simp at h
    · rename_i c2 hce
      split at h
      · simp at h
      · rename_i r hre
        split at h
        · simp only [Prod.mk.injEq, Except.ok.injEq] at h
          rw [← h.1]
        · have := ih (it+1) (some c2) r (idx+2) _ res tr2 h hok
          omega

/-- C3: a verifier report that lacks the `verdict` field, carries a
non-string verdict, or carries any string other than (case-insensitively)
`"pass"`, is treated as failing: the loop performs exactly the failing-step
transition (continue to the next iteration; when iterations are exhausted
the continuation returns `ok = false`), and the session never returns
`ok = true` at this iteration. -/
theorem solveGo_bad_report (problem taskType : List Char) (responses : Nat → List Char)
    (maxIters : Int) (fuel : Nat) (it : Int) (cand : Option Json) (vout : Json) (idx : Nat)
    (tr : List CallRec) (c2 r : Json)
    (hc : extract_json (responses idx) = Except.ok c2)
    (hr : extract_json (responses (idx+1)) = Except.ok r)
    (hbad : badVerdictReport r) :
    solveGo problem taskType responses maxIters (fuel+1) it cand vout idx tr
      = solveGo problem taskType responses maxIters fuel (it+1) (some c2) r (idx+2)
          (tr ++ [mkCandCall problem taskType responses cand vout idx,
                  mkVerCall problem responses c2 (idx+1)])
    ∧ ∀ ans : Json,
        (solveGo problem taskType responses maxIters (fuel+1) it cand vout idx tr).1
          ≠ Except.ok ⟨true, ans, it⟩ := by
  have hne := badVerdict_ne_pass hbad
  have hstep : solveGo problem taskType responses maxIters (fuel+1) it cand vout idx tr
      = solveGo problem taskType responses maxIters fuel (it+1) (some c2) r (idx+2)
          (tr ++ [mkCandCall problem taskType responses cand vout idx,
                  mkVerCall problem responses c2 (idx+1)]) := by
    simp only [solveGo, hc, hr, hne, if_false]
  refine ⟨hstep, ?_⟩
  intro ans hcontra
  rw [hstep] at hcontra
  obtain ⟨res2, tr2, hrt⟩ :
      ∃ res2 tr2, solveGo problem taskType responses maxIters fuel (it+1) (some c2) r (idx+2)
        (tr ++ [mkCandCall problem taskType responses cand vout idx,
                mkVerCall problem responses c2 (idx+1)]) = (res2, tr2) := ⟨_, _, rfl⟩
  rw [hrt] at hcontra
  simp only at hcontra
  subst hcontra
  have := solveGo_ok_iters problem taskType responses maxIters fuel (it+1) (some c2) r (idx+2)
    _ ⟨true, ans, it⟩ tr2 hrt rfl
  simp only at this
  omega

/-- Witness for C3: a report whose `verdict` field is the number 1. -/
theorem solveGo_bad_report_witness :
    solveGo "p".data "mcq".data
        (fun i => if i = 0 then "\x7b\"a\": 1\x7d".data else "\x7b\"verdict\": 1\x7d".data)
        3 (0+1) 1 none (Json.obj []) 0 []
      = solveGo "p".data "mcq".data
          (fun i => if i = 0 then "\x7b\"a\": 1\x7d".data else "\x7b\"verdict\": 1\x7d".data)
          3 0 (1+1) (some (Json.obj [("a".data, Json.num 1)]))
          (Json.obj [("verdict".data, Json.num 1)]) (0+2)
          ([] ++ [mkCandCall "p".data "mcq".data
                    (fun i => if i = 0 then "\x7b\"a\": 1\x7d".data else "\x7b\"verdict\": 1\x7d".data)
                    none (Json.obj []) 0,
                  mkVerCall "p".data
                    (fun i => if i = 0 then "\x7b\"a\": 1\x7d".data else "\x7b\"verdict\": 1\x7d".data)
                    (Json.obj [("a".data, Json.num 1)]) (0+1)])
    ∧ ∀ ans : Json,
        (solveGo "p".data "mcq".data
            (fun i => if i = 0 then "\x7b\"a\": 1\x7d".data else "\x7b\"verdict\": 1\x7d".data)
            3 (0+1) 1 none (Json.obj []) 0 []).1
          ≠ Except.ok ⟨true, ans, 1⟩ :=
  solveGo_bad_report "p".data "mcq".data
    (fun i => if i = 0 then "\x7b\"a\": 1\x7d".data else "\x7b\"verdict\": 1\x7d".data)
    3 0 1 none (Json.obj []) 0 []
    (Json.obj [("a".data, Json.num 1)]) (Json.obj [("verdict".data, Json.num 1)])
    rfl rfl
    (Or.inr (Or.inl ⟨Json.num 1, rfl, fun _ h => Json.noConfusion h⟩))

/-- C4: a task type outside the closed set fails with `InvalidTaskType`
before any model call is made (the call trace is empty). -/
theorem solve_one_invalid_task (problem taskType : List Char) (maxIters : Int)
    (responses : Nat → List Char) (htask : taskType ∉ TASK_TYPES) :
    solve_one problem taskType maxIters responses
      = (Except.error PipeErr.invalidTaskType, []) := by
  rw [solve_one, if_neg htask]

/-- Witness for C4. -/
theorem solve_one_invalid_task_witness :
    solve_one "p".data "essay".data 3 (fun _ => [])
      = (Except.error PipeErr.invalidTaskType, []) :=
  solve_one_invalid_task "p".data "essay".data 3 (fun _ => []) (by decide)

/-- C10: with a valid task type and `max_iters ≤ 0`, `solve_one` makes no
model call and returns `ok = false`, an empty final answer, and
`iters = max_iters` (the out-of-range bound is not rejected). -/
theorem solve_one_nonpos_iters (problem taskType : List Char) (maxIters : Int)
    (responses : Nat → List Char) (htask : taskType ∈ TASK_TYPES) (hmi : maxIters ≤ 0) :
    solve_one problem taskType maxIters responses
      = (Except.ok ⟨false, Json.obj [], maxIters⟩, []) := by
  rw [solve_one, if_pos htask, show maxIters.toNat = 0 from by omega]
  rfl

/-- Witness for C10 at `max_iters = -2`. -/
theorem solve_one_nonpos_iters_witness :
    solve_one "p".data "mcq".data (-2) (fun _ => [])
      = (Except.ok ⟨false, Json.obj [], -2⟩, []) :=
  solve_one_nonpos_iters "p".data "mcq".data (-2) (fun _ => []) (by decide) (by omega)

theorem mkCandCall_response (problem taskType : List Char) (responses : Nat → List Char)
    (cand : Option Json) (vout : Json) (idx : Nat) :
    (mkCandCall problem taskType responses cand vout idx).response = responses idx := by
  cases cand <;> rfl

theorem mkCandCall_stage (problem taskType : List Char) (responses : Nat → List Char)
    (cand : Option Json) (vout : Json) (idx : Nat) :
    (mkCandCall problem taskType responses cand vout idx).stage
      = (if cand.isSome then Stage.fixer else Stage.solver) := by
  cases cand <;> rfl

theorem solveGo_trace_ok (problem taskType : List Char) (responses : Nat → List Char)
    (maxIters : Int) :
    ∀ (fuel : Nat) (it : Int) (cand : Option Json) (vout : Json) (idx : Nat)
      (tr : List CallRec) (res : Except PipeErr SolveResult × List CallRec),
      solveGo problem taskType responses maxIters fuel it cand vout idx tr = res →
      ∃ ext, res.2 = tr ++ ext ∧ TraceOk problem cand.isSome ext := by
  intro fuel
  induction fuel with
  | zero =>
    intro it cand vout idx tr res h
    exact ⟨[], by rw [← h]; simp [solveGo], TraceOk.done _⟩
  | succ f ih =>
    intro it cand vout idx tr res h
    simp only [solveGo] at h
    split at h
    · rename_i e hce
      refine ⟨[mkCandCall problem taskType responses cand vout idx], by rw [← h], ?_⟩
      exact TraceOk.lone _ _ (mkCandCall_stage problem taskType responses cand vout idx)
    · rename_i c2 hce
      split at h
      · rename_i e hre
        refine ⟨[mkCandCall problem taskType responses cand vout idx,
                 mkVerCall problem responses c2 (idx+1)], by rw [← h], ?_⟩
        exact TraceOk.pair _ _ _ _ c2
          (mkCandCall_stage problem taskType responses cand vout idx) rfl
          (by rw [mkCandCall_response]; exact hce) rfl (TraceOk.done _)
      · rename_i r hre
        split at h
        · refine ⟨[mkCandCall problem taskType responses cand vout idx,
                   mkVerCall problem responses c2 (idx+1)], by rw [← h], ?_⟩
          exact TraceOk.pair _ _ _ _ c2
            (mkCandCall_stage problem taskType responses cand vout idx) rfl
            (by rw [mkCandCall_response]; exact hce) rfl (TraceOk.done _)
        · obtain ⟨ext, hext, hok⟩ := ih (it+1) (some c2) r (idx+2)
            (tr ++ [mkCandCall problem taskType responses cand vout idx,
                    mkVerCall problem responses c2 (idx+1)]) res h
          refine ⟨[mkCandCall problem taskType responses cand vout idx,
                   mkVerCall problem responses c2 (idx+1)] ++ ext, ?_, ?_⟩
          · rw [hext, List.append_assoc]
          · exact TraceOk.pair _ _ _ _ c2
              (mkCandCall_stage problem taskType responses cand vout idx) rfl
              (by rw [mkCandCall_response]; exact hce) rfl hok

/-- C8: in every session, each iteration consists of exactly one
candidate-producing call (solver on the first iteration, fixer afterwards)
immediately followed by exactly one verifier call on that same candidate:
the trace of any run of `solve_one` is well-paired in the sense of
`TraceOk`. -/
theorem solve_one_trace_invariant (problem taskType : List Char) (maxIters : Int)
    (responses : Nat → List Char) (res : Except PipeErr SolveResult) (tr : List CallRec)
    (h : solve_one problem taskType maxIters responses = (res, tr)) :
    TraceOk problem false tr := by
  rw [solve_one] at h
  by_cases htask : taskType ∈ TASK_TYPES
  · rw [if_pos htask] at h
    obtain ⟨ext, hext, hok⟩ := solveGo_trace_ok problem taskType responses maxIters
      maxIters.toNat 1 none (Json.obj []) 0 [] (res, tr) h
    simp only [List.nil_append] at hext
    rw [show tr = (res, tr).2 from rfl, hext]
    exact hok
  · rw [if_neg htask] at h
    injection h with h1 h2
    rw [← h2]
    exact TraceOk.done _

/-- Witness for C8 on a concrete one-iteration run. -/
theorem solve_one_trace_invariant_witness :
    TraceOk "p".data false
      (solve_one "p".data "mcq".data 1
        (fun i => if i = 0 then "\x7b\"a\": 1\x7d".data
                  else "\x7b\"verdict\": \"pass\"\x7d".data)).2 :=
  solve_one_trace_invariant "p".data "mcq".data 1
    (fun i => if i = 0 then "\x7b\"a\": 1\x7d".data
              else "\x7b\"verdict\": \"pass\"\x7d".data)
    (solve_one "p".data "mcq".data 1
      (fun i => if i = 0 then "\x7b\"a\": 1\x7d".data
                else "\x7b\"verdict\": \"pass\"\x7d".data)).1
    (solve_one "p".data "mcq".data 1
      (fun i => if i = 0 then "\x7b\"a\": 1\x7d".data
                else "\x7b\"verdict\": \"pass\"\x7d".data)).2
    rfl
